import Mathlib

/-!
Verification of the command-tree introspection and shell-completion
subsystem of the CoreCLI repository (src/commands/utils/completion.py and
src/commands/subs/dev/completion.py), via a shallow embedding in Lean 4.

Conventions of the embedding:
* Python strings are Lean String (a wrapper around List Char); the Python
  functions str.split(sep), sep.join(...), str.startswith, str.rstrip and
  dict lookup are embedded by the executable functions pySplit, pyJoin,
  pyStartsWith, rstrip and dictLookup below, each mirroring the Python
  semantics.
* A Python completer callable may return any value; its result is embedded
  as PyResult (a list of strings, or some non-list value).
* The text emitted by the generator is modelled byte-for-byte (modulo the
  embedding of characters) by generate_completion_script and
  generate_completion_case.  The runtime behaviour of the emitted bash
  fragments is modelled at the word level by caseArmSem and its helpers,
  with bash parameter substitution on the available_opts string modelled
  at the character level (pyReplaceAll).
-/

set_option autoImplicit false

namespace CoreCLI

/-! ### Character-level string utilities shared by the embedding -/

/-- Splitting a character list at every occurrence of a separator
character.  This is the semantics of Python str.split(sep) for a
one-character separator (and of bash word splitting when the text
contains only the separator as whitespace): consecutive separators
produce empty fields and the empty input produces one empty field. -/
def splitChars (sep : Char) : List Char → List (List Char)
  | [] => [[]]
  | c :: rest =>
    if c = sep then [] :: splitChars sep rest
    else
      match splitChars sep rest with
      | [] => [[c]]
      | w :: ws => (c :: w) :: ws

/-- Joining character lists with a separator character, the semantics of
Python sep.join(parts) for a one-character separator. -/
def joinChars (sep : Char) : List (List Char) → List Char
  | [] => []
  | [x] => x
  | x :: y :: rest => x ++ sep :: joinChars sep (y :: rest)

/-- Python str.split(sep) on Lean strings. -/
def pySplit (sep : Char) (s : String) : List String :=
  (splitChars sep s.data).map String.mk

/-- Python sep.join(parts) on Lean strings. -/
def pyJoin (sep : Char) (parts : List String) : String :=
  String.mk (joinChars sep (parts.map String.data))

/-- Python s.startswith(p). -/
def pyStartsWith (s p : String) : Bool :=
  p.data.isPrefixOf s.data

/-- Trailing-whitespace removal on character lists. -/
def rstripData (l : List Char) : List Char :=
  (l.reverse.dropWhile Char.isWhitespace).reverse

/-- Python s.rstrip(). -/
def rstrip (s : String) : String :=
  String.mk (rstripData s.data)

/-- Python s * n for strings (repetition). -/
def strRepeat (s : String) : Nat → String
  | 0 => ""
  | n + 1 => s ++ strRepeat s n

/-- Lookup in a Python dict represented as an association list in
insertion order with distinct keys (first match wins). -/
def dictLookup {α : Type} : List (String × α) → String → Option α
  | [], _ => none
  | (k, v) :: rest, key => if k = key then some v else dictLookup rest key

/-- The substring relation used to state iteration-order properties of
the generated artifact. -/
def ContainsSub (s t : String) : Prop :=
  ∃ p q, s = p ++ t ++ q

/-! ### Basic lemmas about the string utilities -/

theorem data_append (a b : String) : (a ++ b).data = a.data ++ b.data := rfl

theorem mk_data (s : String) : String.mk s.data = s := by
  cases s
  rfl

theorem strAssoc (a b c : String) : a ++ b ++ c = a ++ (b ++ c) := by
  cases a
  cases b
  cases c
  show String.mk _ = String.mk _
  simp [String.append, List.append_assoc]

theorem str_ne_empty_iff (s : String) : s ≠ "" ↔ s.data ≠ [] := by
  constructor
  · intro h hd
    exact h (by cases s with | mk d => cases hd; rfl)
  · intro h he
    exact h (by cases he; rfl)

theorem append_ne_empty_right (x y : String) (h : y ≠ "") : x ++ y ≠ "" := by
  rw [str_ne_empty_iff] at h ⊢
  rw [data_append]
  intro hc
  exact h (List.append_eq_nil.mp hc).2

theorem splitChars_cons_sep (sep : Char) (rest : List Char) :
    splitChars sep (sep :: rest) = [] :: splitChars sep rest := by
  simp [splitChars]

theorem splitChars_ne_nil (sep : Char) (l : List Char) : splitChars sep l ≠ [] := by
  induction l with
  | nil => simp [splitChars]
  | cons c rest ih =>
    simp only [splitChars]
    split
    · simp
    · match h : splitChars sep rest with
      | [] => exact absurd h ih
      | w :: ws => simp

theorem splitChars_cons_ne (sep c : Char) (rest : List Char) (hc : c ≠ sep) :
    ∀ w ws, splitChars sep rest = w :: ws →
      splitChars sep (c :: rest) = (c :: w) :: ws := by
  intro w ws h
  simp only [splitChars, if_neg hc, h]

/-- Every split has a first field. -/
theorem splitChars_exists_cons (sep : Char) (l : List Char) :
    ∃ w ws, splitChars sep l = w :: ws := by
  match h : splitChars sep l with
  | [] => exact absurd h (splitChars_ne_nil sep l)
  | w :: ws => exact ⟨w, ws, rfl⟩

theorem splitChars_append_sep (sep : Char) (a b : List Char) :
    splitChars sep (a ++ sep :: b) = splitChars sep a ++ splitChars sep b := by
  induction a with
  | nil => simp [splitChars_cons_sep, splitChars]
  | cons c a' ih =>
    by_cases hc : c = sep
    · subst hc
      rw [List.cons_append, splitChars_cons_sep, splitChars_cons_sep, ih,
        List.cons_append]
    · obtain ⟨w, ws, h⟩ := splitChars_exists_cons sep a'
      have h2 : splitChars sep (a' ++ sep :: b) = w :: (ws ++ splitChars sep b) := by
        rw [ih, h]
        rfl
      rw [List.cons_append, splitChars_cons_ne sep c _ hc _ _ h2,
        splitChars_cons_ne sep c _ hc w ws h]
      rfl

theorem splitChars_sepFree (sep : Char) (l : List Char) (h : sep ∉ l) :
    splitChars sep l = [l] := by
  induction l with
  | nil => rfl
  | cons c rest ih =>
    have hc : c ≠ sep := fun he => h (he ▸ List.mem_cons_self c rest)
    have hr : sep ∉ rest := fun hm => h (List.mem_cons_of_mem c hm)
    exact splitChars_cons_ne sep c rest hc rest [] (ih hr)

theorem splitChars_join (sep : Char) (ws : List (List Char)) (hne : ws ≠ [])
    (hfree : ∀ w ∈ ws, sep ∉ w) :
    splitChars sep (joinChars sep ws) = ws := by
  induction ws with
  | nil => exact absurd rfl hne
  | cons x rest ih =>
    match rest with
    | [] =>
      show splitChars sep x = [x]
      exact splitChars_sepFree sep x (hfree x (List.mem_cons_self x []))
    | y :: rest' =>
      show splitChars sep (x ++ sep :: joinChars sep (y :: rest')) = x :: y :: rest'
      rw [splitChars_append_sep]
      rw [splitChars_sepFree sep x (hfree x (List.mem_cons_self x _))]
      rw [ih (by simp) (fun w hw => hfree w (List.mem_cons_of_mem x hw))]
      rfl

theorem joinChars_splitChars (sep : Char) (l : List Char) :
    joinChars sep (splitChars sep l) = l := by
  induction l with
  | nil => rfl
  | cons c rest ih =>
    obtain ⟨w, ws, h⟩ := splitChars_exists_cons sep rest
    by_cases hc : c = sep
    · subst hc
      rw [splitChars_cons_sep, h]
      rw [h] at ih
      show [] ++ c :: joinChars c (w :: ws) = c :: rest
      simp [ih]
    · rw [splitChars_cons_ne sep c rest hc w ws h]
      rw [h] at ih
      match ws with
      | [] =>
        show (c :: w) = c :: rest
        simpa [joinChars] using ih
      | w' :: ws' =>
        show (c :: w) ++ sep :: joinChars sep (w' :: ws') = c :: rest
        simpa [joinChars] using ih

/-! ### ModularCompletionRegistry: runtime completion routing

Embedding of ModularCompletionRegistry.get_completions
(src/commands/utils/completion.py, lines 296-325).  A registered completer
is an arbitrary Python callable; its return value need not be a list, so
the embedded completer returns a PyResult. -/

/-- The value returned by a Python completer callable: either a list of
strings, or some value that is not a list (whose content is irrelevant to
the router, which discards it). -/
inductive PyResult where
  | list (xs : List String)
  | nonList

/-- Python line 314/323: result if isinstance(result, list) else []. -/
def asList : PyResult → List String
  | .list xs => xs
  | .nonList => []

/-- A completer callable registered in the registry; the Click context is
threaded through as an opaque value of type Ctx. -/
def Completer (Ctx : Type) : Type :=
  Ctx → List String → String → PyResult

/-- The parent command path: command_path.split "." joined back with "."
after dropping the final segment (lines 317-319). -/
def parent_path (command_path : String) : String :=
  pyJoin '.' ((pySplit '.' command_path).dropLast)

/-- ModularCompletionRegistry.get_completions (lines 296-325): exact-path
lookup first; otherwise, when the path has more than one dotted segment,
a single-level parent lookup; otherwise the empty list.  The registry
dict (self.completions) is the association list in insertion order. -/
def get_completions {Ctx : Type} (completions : List (String × Completer Ctx))
    (command_path : String) (ctx : Ctx) (args : List String)
    (incomplete : String) : List String :=
  match dictLookup completions command_path with
  | some completer => asList (completer ctx args incomplete)
  | none =>
    if (pySplit '.' command_path).length > 1 then
      match dictLookup completions (parent_path command_path) with
      | some completer => asList (completer ctx args incomplete)
      | none => []
    else []

/-! ### Lemmas about dotted paths -/

theorem pySplit_append_dot (p last : String) (h : '.' ∉ last.data) :
    pySplit '.' (p ++ "." ++ last) = pySplit '.' p ++ [last] := by
  have hdata : (p ++ "." ++ last).data = p.data ++ '.' :: last.data := by
    rw [data_append, data_append]
    simp [List.append_assoc]
  rw [pySplit, hdata, splitChars_append_sep, splitChars_sepFree '.' last.data h]
  rw [List.map_append]
  rw [pySplit]
  simp [mk_data]

theorem pyJoin_pySplit (sep : Char) (s : String) :
    pyJoin sep (pySplit sep s) = s := by
  rw [pyJoin, pySplit, List.map_map]
  have : (String.data ∘ String.mk) = id := by
    funext l
    rfl
  rw [this, List.map_id, joinChars_splitChars, mk_data]

theorem parent_path_append_dot (p last : String) (h : '.' ∉ last.data) :
    parent_path (p ++ "." ++ last) = p := by
  rw [parent_path, pySplit_append_dot p last h, List.dropLast_concat,
    pyJoin_pySplit]

theorem pySplit_ne_nil (sep : Char) (s : String) : pySplit sep s ≠ [] := by
  rw [pySplit]
  intro hc
  exact splitChars_ne_nil sep s.data (List.map_eq_nil_iff.mp hc)

theorem pySplit_append_dot_length (p last : String) (h : '.' ∉ last.data) :
    (pySplit '.' (p ++ "." ++ last)).length > 1 := by
  rw [pySplit_append_dot p last h, List.length_append]
  have := List.length_pos.mpr (pySplit_ne_nil '.' p)
  simp only [List.length_singleton]
  omega

/-! ### Claim C2: routing with single-level parent fallback -/

/-- C2: get_completions invokes the completer registered for the exact
path and returns its result; failing that it strips exactly the last
dotted segment and, if that single parent path is registered, invokes the
parent completer and returns its result; failing both it returns the
empty list (so a path two or more levels below the only registered
ancestor yields the empty list). -/
theorem spec_c2 {Ctx : Type} (completions : List (String × Completer Ctx))
    (command_path : String) (ctx : Ctx) (args : List String)
    (incomplete : String) :
    (∀ c xs, dictLookup completions command_path = some c →
      c ctx args incomplete = .list xs →
      get_completions completions command_path ctx args incomplete = xs)
    ∧ (∀ p last c xs, dictLookup completions command_path = none →
      command_path = p ++ "." ++ last → '.' ∉ last.data →
      dictLookup completions p = some c →
      c ctx args incomplete = .list xs →
      get_completions completions command_path ctx args incomplete = xs)
    ∧ (dictLookup completions command_path = none →
      dictLookup completions (parent_path command_path) = none →
      get_completions completions command_path ctx args incomplete = []) := by
  refine ⟨?_, ?_, ?_⟩
  · intro c xs hfind hres
    rw [get_completions, hfind]
    show asList (c ctx args incomplete) = xs
    rw [hres]
    rfl
  · intro p last c xs hnone heq hfree hparent hres
    subst heq
    rw [get_completions, hnone]
    rw [if_pos (pySplit_append_dot_length p last hfree)]
    rw [parent_path_append_dot p last hfree, hparent]
    show asList (c ctx args incomplete) = xs
    rw [hres]
    rfl
  · intro hnone hpnone
    rw [get_completions, hnone]
    by_cases hlen : (pySplit '.' command_path).length > 1
    · rw [if_pos hlen, hpnone]
    · rw [if_neg hlen]

/-- A concrete dynamic completer mirroring complete_format from
src/commands/subs/dev/completion.py (its option branch). -/
def fmtCompleter : Completer Unit := fun _ _ incomplete =>
  .list (["--check", "--diff", "--verbose"].filter
    (fun o => pyStartsWith o incomplete))

def demoRegistry : List (String × Completer Unit) :=
  [("dev.format", fmtCompleter)]

theorem spec_c2_witness :
    get_completions demoRegistry "dev.format.extra" () [] "--d" = ["--diff"]
    ∧ get_completions demoRegistry "dev.format.extra.more" () [] "" = [] := by
  constructor
  · exact (spec_c2 demoRegistry "dev.format.extra" () [] "--d").2.1
      "dev.format" "extra" fmtCompleter ["--diff"] rfl rfl (by decide) rfl rfl
  · exact (spec_c2 demoRegistry "dev.format.extra.more" () [] "").2.2 rfl rfl

/-! ### Claim C9: non-list completer results are replaced by [] -/

/-- C9: whichever completer is selected (exact path, or the one-level
parent fallback), a return value that is not a list is replaced by the
empty list, so get_completions always hands its caller a list. -/
theorem spec_c9 {Ctx : Type} (completions : List (String × Completer Ctx))
    (command_path : String) (ctx : Ctx) (args : List String)
    (incomplete : String) :
    (∀ c, dictLookup completions command_path = some c →
      c ctx args incomplete = .nonList →
      get_completions completions command_path ctx args incomplete = [])
    ∧ (∀ c, dictLookup completions command_path = none →
      (pySplit '.' command_path).length > 1 →
      dictLookup completions (parent_path command_path) = some c →
      c ctx args incomplete = .nonList →
      get_completions completions command_path ctx args incomplete = []) := by
  constructor
  · intro c hfind hres
    rw [get_completions, hfind]
    show asList (c ctx args incomplete) = []
    rw [hres]
    rfl
  · intro c hnone hlen hparent hres
    rw [get_completions, hnone, if_pos hlen, hparent]
    show asList (c ctx args incomplete) = []
    rw [hres]
    rfl

/-- A completer that returns a non-list value (in Python, e.g. None). -/
def badCompleter : Completer Unit := fun _ _ _ => .nonList

def badRegistry : List (String × Completer Unit) :=
  [("proj.info", badCompleter)]

theorem spec_c9_witness :
    get_completions badRegistry "proj.info" () [] "" = []
    ∧ get_completions badRegistry "proj.info.deep" () [] "" = [] := by
  constructor
  · exact (spec_c9 badRegistry "proj.info" () [] "").1 badCompleter rfl rfl
  · exact (spec_c9 badRegistry "proj.info.deep" () [] "").2 badCompleter rfl
      (by decide) rfl rfl

/-! ### ModularCompletionRegistry construction (discovery)

Embedding of ModularCompletionRegistry._load_completion_modules
(src/commands/utils/completion.py, lines 269-294).  Each candidate
subdirectory of commands/subs is described by a SubDirectory record; the
outcome of importing its completion module is one of: success (with or
without a COMPLETIONS attribute), an ImportError, or any other exception
(e.g. a SyntaxError from a malformed module).  The Python code catches
only ImportError (line 292), with a bare pass - no logging call - and
lets every other exception propagate, aborting the iteration.  The
returned list of log lines is therefore always empty. -/

inductive ImportOutcome (Ctx : Type) where
  | ok (completionsAttr : Option (List (String × Completer Ctx)))
  | importError
  | otherError

def ImportOutcome.isOtherError {Ctx : Type} : ImportOutcome Ctx → Bool
  | .otherError => true
  | _ => false

/-- The keys of the module's COMPLETIONS dict, when present. -/
def ImportOutcome.declaredKeys {Ctx : Type} : ImportOutcome Ctx → List String
  | .ok (some comps) => comps.map Prod.fst
  | _ => []

structure SubDirectory (Ctx : Type) where
  name : String
  isDir : Bool
  hasCompletionPy : Bool
  outcome : ImportOutcome Ctx

/-- _load_completion_modules (lines 269-294).  Result: the log lines
emitted while loading (none are ever emitted) and either the registry
association list in registration order, or an error when some module
raised an exception other than ImportError. -/
def load_completion_modules {Ctx : Type} :
    List (SubDirectory Ctx) →
      List String × Except Unit (List (String × Completer Ctx))
  | [] => ([], .ok [])
  | d :: rest =>
    if d.isDir && !(pyStartsWith d.name "_") && d.hasCompletionPy then
      match d.outcome with
      | .ok (some comps) =>
        match load_completion_modules rest with
        | (logs, .ok reg) =>
          (logs, .ok (comps.map (fun p => (d.name ++ "." ++ p.1, p.2)) ++ reg))
        | (logs, .error e) => (logs, .error e)
      | .ok none => load_completion_modules rest
      | .importError => load_completion_modules rest
      | .otherError => ([], .error ())
    else load_completion_modules rest

/-- The registry that discovery produces when no module fails in a way
that aborts it: contributions of all successfully imported modules, in
iteration order, each key prefixed by the directory name and a dot. -/
def registryOf {Ctx : Type} :
    List (SubDirectory Ctx) → List (String × Completer Ctx)
  | [] => []
  | d :: rest =>
    if d.isDir && !(pyStartsWith d.name "_") && d.hasCompletionPy then
      match d.outcome with
      | .ok (some comps) =>
        comps.map (fun p => (d.name ++ "." ++ p.1, p.2)) ++ registryOf rest
      | _ => registryOf rest
    else registryOf rest

/-! ### Claim C6 (corrected): discovery failure handling -/

def stubCompleter : Completer Unit := fun _ _ _ => .list []

def brokenSubdirs : List (SubDirectory Unit) :=
  [⟨"alpha", true, true, .importError⟩,
   ⟨"beta", true, true, .otherError⟩,
   ⟨"gamma", true, true, .ok (some [("run", stubCompleter)])⟩]

/-- C6 counterexample: with a module whose import fails with an exception
other than ImportError (a malformed module raising SyntaxError, modelled
by the beta entry), discovery aborts: the loadable gamma module's
completers are never registered, although the claim promises that every
loadable module's completers are still registered.  The log-line
component is empty, although the claim promises the failure (alpha's
ImportError) is logged. -/
theorem spec_c6_counterexample :
    load_completion_modules brokenSubdirs = ([], Except.error ()) := rfl

/-- Shared helper: when no module fails with a non-ImportError exception,
discovery returns the clean registry and emits no log line. -/
theorem load_eq_registryOf {Ctx : Type} (subdirs : List (SubDirectory Ctx))
    (h : ∀ d ∈ subdirs, d.outcome.isOtherError = false) :
    load_completion_modules subdirs = ([], Except.ok (registryOf subdirs)) := by
  induction subdirs with
  | nil => rfl
  | cons d rest ih =>
    have hrest : ∀ d' ∈ rest, d'.outcome.isOtherError = false :=
      fun d' hd' => h d' (List.mem_cons_of_mem d hd')
    have hd : d.outcome.isOtherError = false := h d (List.mem_cons_self d rest)
    by_cases hcond : (d.isDir && !(pyStartsWith d.name "_") && d.hasCompletionPy) = true
    · cases ho : d.outcome with
      | ok attr =>
        cases attr with
        | some comps =>
          rw [load_completion_modules, registryOf, if_pos hcond, if_pos hcond, ho,
            ih hrest]
        | none =>
          rw [load_completion_modules, registryOf, if_pos hcond, if_pos hcond, ho]
          exact ih hrest
      | importError =>
        rw [load_completion_modules, registryOf, if_pos hcond, if_pos hcond, ho]
        exact ih hrest
      | otherError =>
        rw [ho] at hd
        exact absurd hd (by simp [ImportOutcome.isOtherError])
    · rw [load_completion_modules, registryOf, if_neg hcond, if_neg hcond]
      exact ih hrest

/-- C6 (amended): only ImportError is caught during discovery of an
individual contribution, and it is skipped silently (no log line), not
logged; any other exception aborts discovery of the remaining
contributions.  Provided every failing module fails with ImportError,
discovery succeeds and every loadable module's completers are still
registered (the result is exactly the registry of the successfully
imported contributions, in order). -/
theorem spec_c6 {Ctx : Type} (subdirs : List (SubDirectory Ctx))
    (h : ∀ d ∈ subdirs, d.outcome.isOtherError = false) :
    load_completion_modules subdirs = ([], Except.ok (registryOf subdirs)) :=
  load_eq_registryOf subdirs h

def mixedSubdirs : List (SubDirectory Unit) :=
  [⟨"__pycache__", true, false, .importError⟩,
   ⟨"alpha", true, true, .importError⟩,
   ⟨"beta", true, true, .ok (some [("run", stubCompleter)])⟩]

theorem spec_c6_witness :
    load_completion_modules mixedSubdirs
      = ([], Except.ok [("beta.run", stubCompleter)]) :=
  spec_c6 mixedSubdirs (by decide)

/-! ### Claim C10: registered paths have exactly two dotted segments -/

theorem pySplit_sepFree (sep : Char) (s : String) (h : sep ∉ s.data) :
    pySplit sep s = [s] := by
  rw [pySplit, splitChars_sepFree sep s.data h]
  simp [mk_data]

theorem dictLookup_eq_none {α : Type} (l : List (String × α)) (key : String)
    (h : ∀ p ∈ l, p.1 ≠ key) : dictLookup l key = none := by
  induction l with
  | nil => rfl
  | cons p rest ih =>
    match p with
    | (k, v) =>
      rw [dictLookup, if_neg (h (k, v) (List.mem_cons_self _ _))]
      exact ih (fun q hq => h q (List.mem_cons_of_mem _ hq))

/-- Every key registered by discovery splits into exactly two dotted
segments, provided directory names and COMPLETIONS keys are dot-free
(which holds for every module in the repository). -/
theorem load_keys_two_segments {Ctx : Type}
    (subdirs : List (SubDirectory Ctx))
    (hname : ∀ d ∈ subdirs, '.' ∉ d.name.data)
    (hkeys : ∀ d ∈ subdirs, ∀ k ∈ d.outcome.declaredKeys, '.' ∉ k.data) :
    ∀ logs reg, load_completion_modules subdirs = (logs, Except.ok reg) →
      ∀ p ∈ reg, (pySplit '.' p.1).length = 2 := by
  induction subdirs with
  | nil =>
    intro logs reg hload p hp
    rw [load_completion_modules] at hload
    cases hload
    exact absurd hp (List.not_mem_nil p)
  | cons d rest ih =>
    intro logs reg hload p hp
    have hnr : ∀ d' ∈ rest, '.' ∉ d'.name.data :=
      fun d' hd' => hname d' (List.mem_cons_of_mem d hd')
    have hkr : ∀ d' ∈ rest, ∀ k ∈ d'.outcome.declaredKeys, '.' ∉ k.data :=
      fun d' hd' => hkeys d' (List.mem_cons_of_mem d hd')
    rw [load_completion_modules] at hload
    by_cases hcond : (d.isDir && !(pyStartsWith d.name "_") && d.hasCompletionPy) = true
    · rw [if_pos hcond] at hload
      match ho : d.outcome with
      | .ok (some comps) =>
        rw [ho] at hload
        rcases hrest : load_completion_modules rest with ⟨logs2, r2⟩
        cases r2 with
        | ok reg2 =>
          rw [hrest] at hload
          injection hload with hlogs hexc
          injection hexc with hreg
          rw [← hreg] at hp
          rcases List.mem_append.mp hp with hmem | hmem
          · obtain ⟨q, hq, hqe⟩ := List.mem_map.mp hmem
            have hk : '.' ∉ (q.1 : String).data := by
              refine hkeys d (List.mem_cons_self d rest) q.1 ?_
              rw [ho]
              exact List.mem_map.mpr ⟨q, hq, rfl⟩
            have hn : '.' ∉ d.name.data := hname d (List.mem_cons_self d rest)
            have : p.1 = d.name ++ "." ++ q.1 := by rw [← hqe]
            rw [this, pySplit_append_dot d.name q.1 hk, pySplit_sepFree '.' d.name hn]
            rfl
          · exact ih hnr hkr logs2 reg2 hrest p hmem
        | error e =>
          rw [hrest] at hload
          cases hload
      | .ok none =>
        rw [ho] at hload
        exact ih hnr hkr logs reg hload p hp
      | .importError =>
        rw [ho] at hload
        exact ih hnr hkr logs reg hload p hp
      | .otherError =>
        rw [ho] at hload
        cases hload
    · rw [if_neg hcond] at hload
      exact ih hnr hkr logs reg hload p hp

/-- C10: every command path registered by discovery is the module
directory name, a dot, and the completer's key - exactly two dotted
segments (given the dot-free names actually present in the repository).
Consequently, for a query path of three or more dotted segments the
exact-match branch of get_completions can never fire: the lookup misses
and only the single-level parent fallback (or the empty result)
applies. -/
theorem spec_c10 {Ctx : Type} (subdirs : List (SubDirectory Ctx))
    (logs : List String) (reg : List (String × Completer Ctx))
    (hname : ∀ d ∈ subdirs, '.' ∉ d.name.data)
    (hkeys : ∀ d ∈ subdirs, ∀ k ∈ d.outcome.declaredKeys, '.' ∉ k.data)
    (hload : load_completion_modules subdirs = (logs, Except.ok reg)) :
    (∀ p ∈ reg, (pySplit '.' p.1).length = 2)
    ∧ ∀ (path : String) (ctx : Ctx) (args : List String) (incomplete : String),
      3 ≤ (pySplit '.' path).length →
      dictLookup reg path = none ∧
      get_completions reg path ctx args incomplete =
        (match dictLookup reg (parent_path path) with
         | some c => asList (c ctx args incomplete)
         | none => []) := by
  have hseg := load_keys_two_segments subdirs hname hkeys logs reg hload
  refine ⟨hseg, ?_⟩
  intro path ctx args incomplete hlen
  have hnone : dictLookup reg path = none := by
    refine dictLookup_eq_none reg path ?_
    intro p hp he
    have := hseg p hp
    rw [he] at this
    omega
  refine ⟨hnone, ?_⟩
  rw [get_completions, hnone, if_pos (by omega)]

/-- The five completion modules actually present under commands/subs,
with their COMPLETIONS keys in source insertion order (build, dev,
package, proj, release completion.py files). -/
def realSubdirs : List (SubDirectory Unit) :=
  [⟨"build", true, true, .ok (some [("build", stubCompleter), ("all", stubCompleter),
      ("clean", stubCompleter), ("component", stubCompleter)])⟩,
   ⟨"dev", true, true, .ok (some [("dev", stubCompleter), ("all", stubCompleter),
      ("format", stubCompleter), ("lint", stubCompleter), ("typecheck", stubCompleter),
      ("test", stubCompleter), ("precommit", stubCompleter),
      ("completion", stubCompleter)])⟩,
   ⟨"package", true, true, .ok (some [("package", stubCompleter), ("build", stubCompleter),
      ("dist", stubCompleter), ("list", stubCompleter)])⟩,
   ⟨"proj", true, true, .ok (some [("proj", stubCompleter), ("info", stubCompleter),
      ("size", stubCompleter), ("stats", stubCompleter)])⟩,
   ⟨"release", true, true, .ok (some [("release", stubCompleter), ("create", stubCompleter),
      ("publish", stubCompleter), ("list", stubCompleter)])⟩]

theorem spec_c10_witness :
    dictLookup (registryOf realSubdirs) "dev.format.extra" = none
    ∧ get_completions (registryOf realSubdirs) "dev.format.extra" () [] "" = [] := by
  have h := spec_c10 realSubdirs [] (registryOf realSubdirs)
    (by decide) (by decide) (load_eq_registryOf realSubdirs (by decide))
  have h2 := h.2 "dev.format.extra" () [] "" (by decide)
  exact ⟨h2.1, h2.2.trans rfl⟩

/-! ### SyncController: the dev completion sync command

Embedding of sync (src/commands/subs/dev/completion.py, lines 42-100).
Filesystem state is abstracted to per-file records: whether the file
exists, and the result of stat (its st_mtime as a Nat, or an OSError).
Generation and writing of the artifact are abstracted to a single genOk
flag (lines 71-100: the try block either completes, producing the new
artifact whose mtime is the wall-clock time of the write, or raises,
reaching the except branch which echoes a failure message and exits 1).
Exit code 0 models the command returning normally (Click exits 0); the
unhandled-exception paths (stat calls at lines 56-60 are outside the try)
also terminate the process with exit code 1, with the interpreter's
traceback as the diagnostic. -/

structure FileInfo where
  present : Bool
  mtime : Except Unit Nat

structure SyncResult where
  exitCode : Nat
  wrote : Bool
  upToDate : Bool
  artifactAfter : FileInfo

/-- Lines 57-61: any-source-newer check; the generator expression
short-circuits, and a stat failure on a scanned source propagates. -/
def anyNewer : List FileInfo → Nat → Except Unit Bool
  | [], _ => .ok false
  | f :: rest, m =>
    if f.present then
      match f.mtime with
      | .error e => .error e
      | .ok t => if m < t then .ok true else anyNewer rest m
    else anyNewer rest m

/-- The sync command (lines 42-100). -/
def syncRun (artifact : FileInfo) (sources : List FileInfo) (genOk : Bool)
    (now : Nat) : SyncResult :=
  if artifact.present then
    match artifact.mtime with
    | .error _ => ⟨1, false, false, artifact⟩
    | .ok m =>
      match anyNewer sources m with
      | .error _ => ⟨1, false, false, artifact⟩
      | .ok false => ⟨0, false, true, artifact⟩
      | .ok true =>
        if genOk then ⟨0, true, false, ⟨true, .ok now⟩⟩
        else ⟨1, false, false, artifact⟩
  else
    if genOk then ⟨0, true, false, ⟨true, .ok now⟩⟩
    else ⟨1, false, false, artifact⟩

/-- The staleness condition of the claim: the artifact is missing, or
some existing source file has a strictly newer last-modified time. -/
def Stale (artifact : FileInfo) (sources : List FileInfo) : Prop :=
  artifact.present = false ∨
    ∃ m, artifact.mtime = .ok m ∧
      ∃ s ∈ sources, s.present = true ∧ ∃ t, s.mtime = .ok t ∧ m < t

/-- No stat call raises. -/
def StatsOk (artifact : FileInfo) (sources : List FileInfo) : Prop :=
  (artifact.present = true → ∃ m, artifact.mtime = .ok m) ∧
  (∀ s ∈ sources, s.present = true → ∃ t, s.mtime = .ok t)

theorem anyNewer_total (sources : List FileInfo) (m : Nat)
    (h : ∀ s ∈ sources, s.present = true → ∃ t, s.mtime = .ok t) :
    ∃ b, anyNewer sources m = .ok b ∧
      (b = true ↔ ∃ s ∈ sources, s.present = true ∧ ∃ t, s.mtime = .ok t ∧ m < t) := by
  induction sources with
  | nil =>
    refine ⟨false, rfl, ?_⟩
    simp
  | cons f rest ih =>
    have hrest : ∀ s ∈ rest, s.present = true → ∃ t, s.mtime = .ok t :=
      fun s hs => h s (List.mem_cons_of_mem f hs)
    obtain ⟨b, hb, hiff⟩ := ih hrest
    by_cases hp : f.present = true
    · obtain ⟨t, ht⟩ := h f (List.mem_cons_self f rest) hp
      by_cases hlt : m < t
      · refine ⟨true, ?_, ?_⟩
        · rw [anyNewer, if_pos hp, ht]
          show (if m < t then Except.ok true else anyNewer rest m) = Except.ok true
          rw [if_pos hlt]
        · simp only [true_iff]
          exact ⟨f, List.mem_cons_self f rest, hp, t, ht, hlt⟩
      · refine ⟨b, ?_, ?_⟩
        · rw [anyNewer, if_pos hp, ht]
          show (if m < t then Except.ok true else anyNewer rest m) = Except.ok b
          rw [if_neg hlt]
          exact hb
        · rw [hiff]
          constructor
          · rintro ⟨s, hs, hsp, t', ht', hlt'⟩
            exact ⟨s, List.mem_cons_of_mem f hs, hsp, t', ht', hlt'⟩
          · rintro ⟨s, hs, hsp, t', ht', hlt'⟩
            rcases List.mem_cons.mp hs with rfl | hs'
            · rw [ht] at ht'
              injection ht' with he
              exact absurd (he ▸ hlt') hlt
            · exact ⟨s, hs', hsp, t', ht', hlt'⟩
    · refine ⟨b, ?_, ?_⟩
      · rw [anyNewer, if_neg hp]
        exact hb
      · rw [hiff]
        constructor
        · rintro ⟨s, hs, hsp, rest'⟩
          exact ⟨s, List.mem_cons_of_mem f hs, hsp, rest'⟩
        · rintro ⟨s, hs, hsp, rest'⟩
          rcases List.mem_cons.mp hs with rfl | hs'
          · exact absurd hsp hp
          · exact ⟨s, hs', hsp, rest'⟩

/-- Shared helper: a freshly written artifact whose mtime is at least
every source mtime is reported up to date by the next run. -/
theorem syncRun_fresh (sources : List FileInfo) (genOk2 : Bool) (now2 t0 : Nat)
    (hstats2 : ∀ s ∈ sources, s.present = true → ∃ t, s.mtime = .ok t)
    (hle : ∀ s ∈ sources, ∀ t, s.mtime = Except.ok t → t ≤ t0) :
    (syncRun ⟨true, Except.ok t0⟩ sources genOk2 now2).wrote = false ∧
    (syncRun ⟨true, Except.ok t0⟩ sources genOk2 now2).upToDate = true := by
  obtain ⟨b, hb, hiff⟩ := anyNewer_total sources t0 hstats2
  have hbf : b = false := by
    cases b with
    | false => rfl
    | true =>
      obtain ⟨s, hs, _, t, ht, hlt⟩ := hiff.mp rfl
      have := hle s hs t ht
      omega
  subst hbf
  have hrun : syncRun ⟨true, Except.ok t0⟩ sources genOk2 now2
      = ⟨0, false, true, ⟨true, Except.ok t0⟩⟩ := by
    simp [syncRun, hb]
  rw [hrun]
  exact ⟨rfl, rfl⟩

/-! ### Claim C7: regenerate exactly when stale; idempotent sync -/

/-- C7: with all stat calls succeeding, sync writes the artifact exactly
when the artifact is missing or some existing source file is strictly
newer (provided generation succeeds); otherwise it reports up to date
and changes nothing; and immediately after a successful sync, a second
sync with unchanged sources performs no write and reports up to date. -/
theorem spec_c7 (artifact : FileInfo) (sources : List FileInfo)
    (genOk : Bool) (now : Nat) (hstats : StatsOk artifact sources) :
    (genOk = true →
      ((syncRun artifact sources genOk now).wrote = true ↔ Stale artifact sources))
    ∧ (¬ Stale artifact sources →
      (syncRun artifact sources genOk now).wrote = false ∧
      (syncRun artifact sources genOk now).upToDate = true ∧
      (syncRun artifact sources genOk now).artifactAfter = artifact)
    ∧ ((∀ s ∈ sources, ∀ t, s.mtime = Except.ok t → t ≤ now) →
      (syncRun artifact sources genOk now).exitCode = 0 →
      ∀ (genOk2 : Bool) (now2 : Nat),
        (syncRun (syncRun artifact sources genOk now).artifactAfter sources
          genOk2 now2).wrote = false ∧
        (syncRun (syncRun artifact sources genOk now).artifactAfter sources
          genOk2 now2).upToDate = true) := by
  by_cases hpres : artifact.present = true
  · obtain ⟨m, hm⟩ := hstats.1 hpres
    obtain ⟨b, hb, hiff⟩ := anyNewer_total sources m hstats.2
    have hstale : Stale artifact sources ↔ b = true := by
      constructor
      · rintro (h1 | ⟨m', hm', s, hs, hsp, t, ht, hlt⟩)
        · rw [hpres] at h1
          cases h1
        · have hmm := hm.symm.trans hm'
          injection hmm with he
          subst he
          exact hiff.mpr ⟨s, hs, hsp, t, ht, hlt⟩
      · intro hbt
        obtain ⟨s, hs, hsp, t, ht, hlt⟩ := hiff.mp hbt
        exact Or.inr ⟨m, hm, s, hs, hsp, t, ht, hlt⟩
    cases b with
    | false =>
      have hrun : syncRun artifact sources genOk now = ⟨0, false, true, artifact⟩ := by
        simp [syncRun, hpres, hm, hb]
      have hrun2 : ∀ (g2 : Bool) (n2 : Nat),
          syncRun artifact sources g2 n2 = ⟨0, false, true, artifact⟩ := by
        intro g2 n2
        simp [syncRun, hpres, hm, hb]
      refine ⟨?_, ?_, ?_⟩
      · intro _
        rw [hrun]
        exact hstale.symm
      · intro _
        rw [hrun]
        exact ⟨rfl, rfl, rfl⟩
      · intro _ _ genOk2 now2
        rw [hrun, hrun2 genOk2 now2]
        exact ⟨rfl, rfl⟩
    | true =>
      have hS : Stale artifact sources := hstale.mpr rfl
      by_cases hg : genOk = true
      · have hrun : syncRun artifact sources genOk now
            = ⟨0, true, false, ⟨true, .ok now⟩⟩ := by
          simp [syncRun, hpres, hm, hb, hg]
        refine ⟨?_, ?_, ?_⟩
        · intro _
          rw [hrun]
          exact ⟨fun _ => hS, fun _ => rfl⟩
        · intro hnS
          exact absurd hS hnS
        · intro hle _ genOk2 now2
          rw [hrun]
          exact syncRun_fresh sources genOk2 now2 now hstats.2 hle
      · have hgf : genOk = false := by
          revert hg
          cases genOk <;> simp
        have hrun : syncRun artifact sources genOk now
            = ⟨1, false, false, artifact⟩ := by
          simp [syncRun, hpres, hm, hb, hgf]
        refine ⟨?_, ?_, ?_⟩
        · intro hgt
          exact absurd hgt hg
        · intro hnS
          exact absurd hS hnS
        · intro _ h0
          rw [hrun] at h0
          simp at h0
  · have hpf : artifact.present = false := by
      revert hpres
      cases artifact.present <;> simp
    have hS : Stale artifact sources := Or.inl hpf
    by_cases hg : genOk = true
    · have hrun : syncRun artifact sources genOk now
          = ⟨0, true, false, ⟨true, .ok now⟩⟩ := by
        simp [syncRun, hpf, hg]
      refine ⟨?_, ?_, ?_⟩
      · intro _
        rw [hrun]
        exact ⟨fun _ => hS, fun _ => rfl⟩
      · intro hnS
        exact absurd hS hnS
      · intro hle _ genOk2 now2
        rw [hrun]
        exact syncRun_fresh sources genOk2 now2 now hstats.2 hle
    · have hgf : genOk = false := by
        revert hg
        cases genOk <;> simp
      have hrun : syncRun artifact sources genOk now
          = ⟨1, false, false, artifact⟩ := by
        simp [syncRun, hpf, hgf]
      refine ⟨?_, ?_, ?_⟩
      · intro hgt
        exact absurd hgt hg
      · intro hnS
        exact absurd hS hnS
      · intro _ h0
        rw [hrun] at h0
        simp at h0

def missingArtifact : FileInfo := ⟨false, Except.error ()⟩

def demoSources : List FileInfo := [⟨true, Except.ok 3⟩]

theorem spec_c7_witness :
    (syncRun (syncRun missingArtifact demoSources true 10).artifactAfter
      demoSources true 11).wrote = false
    ∧ (syncRun (syncRun missingArtifact demoSources true 10).artifactAfter
      demoSources true 11).upToDate = true := by
  have hstats : StatsOk missingArtifact demoSources := by
    constructor
    · intro h
      simp [missingArtifact] at h
    · intro s hs _
      rw [demoSources, List.mem_singleton] at hs
      subst hs
      exact ⟨3, rfl⟩
  refine (spec_c7 missingArtifact demoSources true 10 hstats).2.2 ?_ rfl true 11
  intro s hs t ht
  rw [demoSources, List.mem_singleton] at hs
  subst hs
  injection ht with he
  omega

/-! ### Claim C8: exit status of sync -/

/-- The condition under which the sync command terminates successfully:
the staleness check runs without a stat error and either reports up to
date or regeneration succeeds. -/
def SyncSucceeds (artifact : FileInfo) (sources : List FileInfo)
    (genOk : Bool) : Prop :=
  if artifact.present = true then
    ∃ m, artifact.mtime = Except.ok m ∧
      (anyNewer sources m = Except.ok false ∨
        (anyNewer sources m = Except.ok true ∧ genOk = true))
  else genOk = true

/-- C8: sync terminates with exit code 0 exactly on success (including
the already-up-to-date case) and with exit code 1 on any failure; in
particular a stat error while reading timestamps or a failure while
generating/writing the artifact is fatal, and a failed run performs no
write. -/
theorem spec_c8 (artifact : FileInfo) (sources : List FileInfo)
    (genOk : Bool) (now : Nat) :
    ((syncRun artifact sources genOk now).exitCode = 0 ∨
      (syncRun artifact sources genOk now).exitCode = 1)
    ∧ ((syncRun artifact sources genOk now).exitCode = 0 ↔
      SyncSucceeds artifact sources genOk)
    ∧ ((syncRun artifact sources genOk now).upToDate = true →
      (syncRun artifact sources genOk now).exitCode = 0)
    ∧ ((syncRun artifact sources genOk now).exitCode = 1 →
      (syncRun artifact sources genOk now).wrote = false) := by
  by_cases hpres : artifact.present = true
  · cases hmt : artifact.mtime with
    | error e =>
      have hrun : syncRun artifact sources genOk now
          = ⟨1, false, false, artifact⟩ := by
        simp [syncRun, hpres, hmt]
      rw [hrun]
      refine ⟨Or.inr rfl, ?_, ?_, ?_⟩
      · refine iff_of_false (by simp) ?_
        rw [SyncSucceeds, if_pos hpres]
        rintro ⟨m, hm, _⟩
        have := hmt.symm.trans hm
        cases this
      · intro h
        simp at h
      · intro _
        rfl
    | ok m =>
      cases hb : anyNewer sources m with
      | error e =>
        have hrun : syncRun artifact sources genOk now
            = ⟨1, false, false, artifact⟩ := by
          simp [syncRun, hpres, hmt, hb]
        rw [hrun]
        refine ⟨Or.inr rfl, ?_, ?_, ?_⟩
        · refine iff_of_false (by simp) ?_
          rw [SyncSucceeds, if_pos hpres]
          rintro ⟨m', hm', hc | hc⟩
          · have hmm := hmt.symm.trans hm'
            injection hmm with he
            subst he
            have := hb.symm.trans hc
            cases this
          · have hmm := hmt.symm.trans hm'
            injection hmm with he
            subst he
            have := hb.symm.trans hc.1
            cases this
        · intro h
          simp at h
        · intro _
          rfl
      | ok b =>
        cases b with
        | false =>
          have hrun : syncRun artifact sources genOk now
              = ⟨0, false, true, artifact⟩ := by
            simp [syncRun, hpres, hmt, hb]
          rw [hrun]
          refine ⟨Or.inl rfl, ?_, fun _ => rfl, ?_⟩
          · refine iff_of_true rfl ?_
            rw [SyncSucceeds, if_pos hpres]
            exact ⟨m, hmt, Or.inl hb⟩
          · intro h
            simp at h
        | true =>
          by_cases hg : genOk = true
          · have hrun : syncRun artifact sources genOk now
                = ⟨0, true, false, ⟨true, .ok now⟩⟩ := by
              simp [syncRun, hpres, hmt, hb, hg]
            rw [hrun]
            refine ⟨Or.inl rfl, ?_, fun _ => rfl, ?_⟩
            · refine iff_of_true rfl ?_
              rw [SyncSucceeds, if_pos hpres]
              exact ⟨m, hmt, Or.inr ⟨hb, hg⟩⟩
            · intro h
              simp at h
          · have hgf : genOk = false := by
              revert hg
              cases genOk <;> simp
            have hrun : syncRun artifact sources genOk now
                = ⟨1, false, false, artifact⟩ := by
              simp [syncRun, hpres, hmt, hb, hgf]
            rw [hrun]
            refine ⟨Or.inr rfl, ?_, ?_, fun _ => rfl⟩
            · refine iff_of_false (by simp) ?_
              rw [SyncSucceeds, if_pos hpres]
              rintro ⟨m', hm', hc | hc⟩
              · have hmm := hmt.symm.trans hm'
                injection hmm with he
                subst he
                have := hb.symm.trans hc
                injection this with hbe
                cases hbe
              · exact absurd hc.2 hg
            · intro h
              simp at h
  · have hpf : artifact.present = false := by
      revert hpres
      cases artifact.present <;> simp
    by_cases hg : genOk = true
    · have hrun : syncRun artifact sources genOk now
          = ⟨0, true, false, ⟨true, .ok now⟩⟩ := by
        simp [syncRun, hpf, hg]
      rw [hrun]
      refine ⟨Or.inl rfl, ?_, fun _ => rfl, ?_⟩
      · refine iff_of_true rfl ?_
        rw [SyncSucceeds, if_neg hpres]
        exact hg
      · intro h
        simp at h
    · have hgf : genOk = false := by
        revert hg
        cases genOk <;> simp
      have hrun : syncRun artifact sources genOk now
          = ⟨1, false, false, artifact⟩ := by
        simp [syncRun, hpf, hgf]
      rw [hrun]
      refine ⟨Or.inr rfl, ?_, ?_, fun _ => rfl⟩
      · refine iff_of_false (by simp) ?_
        rw [SyncSucceeds, if_neg hpres]
        exact hg
      · intro h
        simp at h

theorem spec_c8_witness :
    (syncRun ⟨true, Except.ok 5⟩ [] true 9).exitCode = 0
    ∧ (syncRun ⟨true, Except.error ()⟩ [] true 9).wrote = false :=
  ⟨(spec_c8 ⟨true, Except.ok 5⟩ [] true 9).2.2.1 rfl,
   (spec_c8 ⟨true, Except.error ()⟩ [] true 9).2.2.2 rfl⟩

/-! ### The command tree (get_command_info, lines 11-42)

The dict produced by get_command_info is embedded as a tree: name, help,
the options in declared order (each with its spellings, Click type name
and declared choices), and the subcommands dict in insertion order.
SubMap is an insertion-ordered association structure, mutually inductive
with CmdInfo so that the recursive generator and the recursive semantics
of the emitted script are structurally recursive. -/

structure OptInfo where
  names : List String
  typeName : String
  choices : List String

mutual
inductive CmdInfo where
  | mk (name : String) (help : String) (options : List OptInfo)
      (subcommands : SubMap)
inductive SubMap where
  | nil
  | cons (key : String) (value : CmdInfo) (rest : SubMap)
end

def CmdInfo.options : CmdInfo → List OptInfo
  | .mk _ _ o _ => o

def CmdInfo.subcommands : CmdInfo → SubMap
  | .mk _ _ _ s => s

def SubMap.keys : SubMap → List String
  | .nil => []
  | .cons k _ rest => k :: SubMap.keys rest

def SubMap.isNil : SubMap → Bool
  | .nil => true
  | .cons _ _ _ => false

/-- Lines 72-76 and 131-133: options = []; for opt in cmd_info options:
options.extend(opt names) - the flattened spellings in declared order. -/
def optNamesOf : List OptInfo → List String
  | [] => []
  | o :: rest => o.names ++ optNamesOf rest

/-! ### Runtime semantics of the emitted bash fragments

The generator emits bash text; the claims speak about what that text
computes when the shell runs it.  The fragments are modelled here:
bash parameter substitution on the available_opts string at the
character level, everything else at the word level (completion-line
tokens are words, so they contain no spaces). -/

/-- Non-overlapping left-to-right replacement of a literal pattern, the
semantics of bash parameter substitution with two slashes.  The fuel
argument makes the recursion structural; it is always called with the
length of the subject, which the scan cannot exceed (every step consumes
at least one character). -/
def replaceAllAux (pat rep : List Char) : Nat → List Char → List Char
  | _, [] => []
  | 0, s => s
  | fuel + 1, c :: rest =>
    if pat.isPrefixOf (c :: rest) && !pat.isEmpty then
      rep ++ replaceAllAux pat rep fuel (rest.drop (pat.length - 1))
    else c :: replaceAllAux pat rep fuel rest

def pyReplaceAll (s pat rep : String) : String :=
  String.mk (replaceAllAux pat.data rep.data s.data.length s.data)

/-- compgen -W wordlist with a trailing current word: split the word
list on spaces (bash word splitting; the list contains only spaces as
whitespace) and keep the words with cur as a literal prefix, in order. -/
def compgenW (wordlist cur : String) : List String :=
  (((splitChars ' ' wordlist.data).map String.mk).filter
    (fun t => t != "")).filter (fun t => pyStartsWith t cur)

/-- Removal of one leading space, the semantics of the emitted
trim-one-space substitution on the left (the pattern is one space). -/
def stripLead1 (s : String) : String :=
  match s.data with
  | ' ' :: t => String.mk t
  | _ => s

/-- Removal of one trailing space. -/
def stripTrail1 (s : String) : String :=
  match s.data.reverse with
  | ' ' :: t => String.mk t.reverse
  | _ => s

/-- The loop emitted at lines 112-116 (subcommand-bearing nodes, dash
pattern "-") and 141-147 / 157-163 (leaf nodes, dash pattern "--"): for
every word of the completion line that matches the dash pattern and
differs from the current word, delete its space-delimited occurrences
from the available_opts string, starting from two spaces around the
joined option spellings. -/
def availAfterLoop (optionsStr : String) (dashPat : String)
    (words : List String) (cur : String) : String :=
  words.foldl
    (fun avail w =>
      if pyStartsWith w dashPat && w != cur then
        pyReplaceAll avail (" " ++ w ++ " ") " "
      else avail)
    (" " ++ optionsStr ++ " ")

/-- The emitted option-exclusion computation followed by compgen (lines
110-122 with pattern "-", lines 139-151 and 154-168 with pattern "--"):
initialize available_opts from the node's option spellings, delete the
already-used options, trim one space on each side, then prefix-filter
against the current word. -/
def optionSubtract (names : List String) (dashPat : String)
    (words : List String) (cur : String) : List String :=
  compgenW (stripTrail1 (stripLead1
    (availAfterLoop (pyJoin ' ' names) dashPat words cur))) cur

/-- The case arms emitted at lines 55-63: for each option with declared
choices, one arm per long-form (dash-dash) spelling, in emission
order. -/
def choiceArms : List OptInfo → List (String × List String)
  | [] => []
  | o :: rest =>
    (if o.choices.isEmpty then []
     else (o.names.filter (fun n => pyStartsWith n "--")).map
       (fun n => (n, o.choices)))
      ++ choiceArms rest

/-- Whether the prev-check block emitted at lines 51-66 fires at
runtime: the node has options (the block exists), prev starts with two
dashes (outer guard), and prev equals an emitted case pattern; yields
the matched option's choices. -/
def choiceFire (options : List OptInfo) (prev : String) : Option (List String) :=
  if !options.isEmpty && pyStartsWith prev "--" then
    dictLookup (choiceArms options) prev
  else none

/-- The scan loop emitted at lines 81-87, over the tokens at words
indices idx+1 .. cword-1: the first one that does not start with a dash
and equals a declared subcommand name.  (Tokens are words, hence
nonempty and space-free, so the emitted space-delimited substring test
on the subcommands string is exact name membership.) -/
def scanTokens (names : List String) : List String → Option String
  | [] => none
  | w :: rest =>
    if !(pyStartsWith w "-") && names.contains w then some w
    else scanTokens names rest

/-- The slice of the completion line the scan loop looks at. -/
def tokensAfter (words : List String) (idx cword : Nat) : List String :=
  (words.drop (idx + 1)).take (cword - (idx + 1))

mutual
/-- Word-level execution semantics of the case arm emitted by
generate_completion_case for a node whose runtime index is idx
(= cmd_idx + depth): the choice check (lines 51-66) runs first and
returns; then subcommand dispatch (lines 78-102); with no subcommand
token found, option exclusion or subcommand listing (lines 103-128);
at a leaf, option exclusion alone (lines 129-170).  An arm that sets
no COMPREPLY yields no candidates ([]). -/
def caseArmSem : CmdInfo → List String → Nat → Nat → String → String → List String
  | .mk _ _ options subs, words, idx, cword, cur, prev =>
    match choiceFire options prev with
    | some choices => compgenW (pyJoin ' ' choices) cur
    | none =>
      match subs with
      | .nil =>
        if !(optNamesOf options).isEmpty then
          if pyStartsWith cur "-" then
            optionSubtract (optNamesOf options) "--" words cur
          else if cur == "" then
            optionSubtract (optNamesOf options) "--" words cur
          else []
        else []
      | .cons k v rest =>
        match scanTokens (SubMap.keys (.cons k v rest))
            (tokensAfter words idx cword) with
        | some w => dispatchSub (.cons k v rest) w words idx cword cur prev
        | none =>
          if pyStartsWith cur "-" then
            if pyJoin ' ' (optNamesOf options) != "" then
              optionSubtract (optNamesOf options) "-" words cur
            else []
          else compgenW (pyJoin ' ' (SubMap.keys (.cons k v rest))) cur

/-- The dispatch emitted at lines 89-102: the first case arm whose name
equals the found subcommand token runs the child's case arm at depth+1
(runtime index idx+1). -/
def dispatchSub : SubMap → String → List String → Nat → Nat → String → String → List String
  | .nil, _, _, _, _, _, _ => []
  | .cons k v rest, w, words, idx, cword, cur, prev =>
    if k = w then caseArmSem v words (idx + 1) cword cur prev
    else dispatchSub rest w words idx cword cur prev
end

/-! ### The generator (generate_completion_case, lines 45-172, and
generate_completion_script, lines 175-257)

The emitted text is reproduced byte for byte; literal braces of the
emitted bash are written with hexadecimal escapes. -/

/-- Lines 57-63, the inner loop over one option's spellings. -/
def choiceArmLines (indent : String) (choices : List String) : List String → String
  | [] => ""
  | n :: rest =>
    (if pyStartsWith n "--" then
      indent ++ "        " ++ n ++ ")\n"
      ++ indent ++ "            COMPREPLY=($(compgen -W \"" ++ pyJoin ' ' choices
        ++ "\" -- \"$\x7bcur\x7d\"))\n"
      ++ indent ++ "            return 0\n"
      ++ indent ++ "            ;;\n"
     else "") ++ choiceArmLines indent choices rest

/-- Lines 55-63, the loop over the node's options. -/
def choiceArmsText (indent : String) : List OptInfo → String
  | [] => ""
  | o :: rest =>
    (if o.choices.isEmpty then "" else choiceArmLines indent o.choices o.names)
    ++ choiceArmsText indent rest

/-- Lines 51-66: the prev/choices block, emitted whenever the node has
any option. -/
def optBlock (options : List OptInfo) (indent : String) : String :=
  if options.isEmpty then ""
  else
    indent ++ "if [[ \"$\x7bprev\x7d\" == --* ]]; then\n"
    ++ indent ++ "    case \"$\x7bprev\x7d\" in\n"
    ++ choiceArmsText indent options
    ++ indent ++ "    esac\n"
    ++ indent ++ "fi\n\n"

/-- Lines 110-122 / 139-151 / 155-168: the option-exclusion fragment,
with its base indentation, its dash pattern, the final compgen current
word argument, and the joined option spellings. -/
def availFilterText (b : String) (pat : String) (curArg : String)
    (optionsStr : String) : String :=
  b ++ "# Filter out already used options\n"
  ++ b ++ "local available_opts=\" " ++ optionsStr ++ " \"\n"
  ++ b ++ "for word in \"$\x7bwords[@]\x7d\"; do\n"
  ++ b ++ "    if [[ \"$word\" == " ++ pat
    ++ " ]] && [[ \"$word\" != \"$\x7bcur\x7d\" ]]; then\n"
  ++ b ++ "        available_opts=\"$\x7bavailable_opts// $word / \x7d\"\n"
  ++ b ++ "    fi\n"
  ++ b ++ "done\n"
  ++ b ++ "# Trim spaces and offer remaining options\n"
  ++ b ++ "available_opts=\"$\x7bavailable_opts## \x7d\"\n"
  ++ b ++ "available_opts=\"$\x7bavailable_opts%% \x7d\"\n"
  ++ b ++ "COMPREPLY=($(compgen -W \"$\x7bavailable_opts\x7d\" -- " ++ curArg ++ "))\n"

/-- Lines 69-128: the block emitted for a node with subcommands; the
already-rendered nested case arms are passed in as armsText. -/
def groupBlock (keys : List String) (options : List OptInfo)
    (armsText : String) (indent : String) (depth : Nat) : String :=
  indent ++ "# Check for subcommand at this level\n"
  ++ indent ++ "local subcmd=\x27\x27\n"
  ++ (indent ++ ("local subcommands=\x27" ++ pyJoin ' ' keys ++ "\x27\n"))
  ++ indent ++ "local idx=$((cmd_idx + " ++ toString depth ++ "))\n"
  ++ indent ++ "for ((i=idx+1; i < $\x7bcword\x7d; i++)); do\n"
  ++ indent ++ "    if [[ \"$\x7bwords[i]\x7d\" != -* ]] && [[ \" $\x7bsubcommands\x7d \" == *\" $\x7bwords[i]\x7d \"* ]]; then\n"
  ++ indent ++ "        subcmd=\"$\x7bwords[i]\x7d\"\n"
  ++ indent ++ "        break\n"
  ++ indent ++ "    fi\n"
  ++ indent ++ "done\n\n"
  ++ indent ++ "if [[ -n \"$\x7bsubcmd\x7d\" ]]; then\n"
  ++ indent ++ "    case \"$\x7bsubcmd\x7d\" in\n"
  ++ armsText
  ++ indent ++ "    esac\n"
  ++ indent ++ "else\n"
  ++ indent ++ "    # No subcommand yet, offer subcommands and options\n"
  ++ indent ++ "    if [[ \"$\x7bcur\x7d\" == -* ]]; then\n"
  ++ (if pyJoin ' ' (optNamesOf options) != "" then
        availFilterText (indent ++ "        ") "-*" "\"$\x7bcur\x7d\""
          (pyJoin ' ' (optNamesOf options))
      else indent ++ "        COMPREPLY=()\n")
  ++ indent ++ "    else\n"
  ++ indent ++ "        COMPREPLY=($(compgen -W \"$\x7bsubcommands\x7d\" -- \"$\x7bcur\x7d\"))\n"
  ++ indent ++ "    fi\n"
  ++ indent ++ "fi\n"

/-- Lines 129-170: the block emitted for a leaf node (no subcommands);
nothing is emitted when the node has no option spelling. -/
def leafBlock (options : List OptInfo) (indent : String) : String :=
  if (optNamesOf options).isEmpty then ""
  else
    indent ++ "if [[ \"$\x7bcur\x7d\" == -* ]]; then\n"
    ++ indent ++ "    # User typed -, show matching options\n"
    ++ availFilterText (indent ++ "    ") "--*" "\"$\x7bcur\x7d\""
      (pyJoin ' ' (optNamesOf options))
    ++ indent ++ "elif [[ -z \"$\x7bcur\x7d\" ]]; then\n"
    ++ indent ++ "    # Empty current word, show filtered options\n"
    ++ availFilterText (indent ++ "    ") "--*" "\"\""
      (pyJoin ' ' (optNamesOf options))
    ++ indent ++ "fi\n"

/-- Lines 96-99: each nonempty line of the nested case content is
re-indented under the subcommand's arm. -/
def reindentLines (indent : String) : List String → String
  | [] => ""
  | line :: rest =>
    (if line != "" then indent ++ "            " ++ line ++ "\n" else "")
    ++ reindentLines indent rest

def reindent (indent : String) (s : String) : String :=
  reindentLines indent ((splitChars '\n' s.data).map String.mk)

mutual
/-- generate_completion_case (lines 45-172). -/
def generate_completion_case : CmdInfo → Nat → String
  | .mk _ _ options subs, depth =>
    rstrip (optBlock options (strRepeat "    " (depth + 3))
      ++ (match subs with
          | .nil => leafBlock options (strRepeat "    " (depth + 3))
          | .cons k v rest =>
            groupBlock (SubMap.keys (.cons k v rest)) options
              (genArms (.cons k v rest) (strRepeat "    " (depth + 3)) depth)
              (strRepeat "    " (depth + 3)) depth))

/-- Lines 93-100: the loop emitting one case arm per subcommand, in
insertion order. -/
def genArms : SubMap → String → Nat → String
  | .nil, _, _ => ""
  | .cons name child rest, indent, depth =>
    indent ++ "        " ++ name ++ ")\n"
    ++ reindent indent (generate_completion_case child (depth + 1))
    ++ indent ++ "            ;;\n"
    ++ genArms rest indent depth
end

/-- The rendered text of the f-string at lines 181-224 up to the point
where the joined top-level command names are interpolated. -/
def scriptHeaderA : String :=
  "#!/bin/bash\n# Auto-generated completion script for ehAye™ Core CLI\nexport _ehaye_cli_completions_loaded=1\n\n_ehaye_cli_completions() \x7b\n    local cur prev words cword\n    if [[ -n \"$ZSH_VERSION\" ]]; then\n        cur=\"$\x7bCOMP_WORDS[COMP_CWORD]\x7d\"\n        prev=\"$\x7bCOMP_WORDS[COMP_CWORD-1]\x7d\"\n        words=(\"$\x7bCOMP_WORDS[@]\x7d\")\n        cword=$COMP_CWORD\n    else\n        if type _get_comp_words_by_ref &>/dev/null; then\n            _get_comp_words_by_ref -n : cur prev words cword\n        else\n            cur=\"$\x7bCOMP_WORDS[COMP_CWORD]\x7d\"\n            prev=\"$\x7bCOMP_WORDS[COMP_CWORD-1]\x7d\"\n            words=(\"$\x7bCOMP_WORDS[@]\x7d\")\n            cword=$COMP_CWORD\n        fi\n    fi\n\n    # Main commands\n    "

/-- The rest of the f-string after the interpolated command list. -/
def scriptHeaderB : String :=
  "\n\n    if [[ $\x7bcword\x7d -eq 1 ]]; then\n        COMPREPLY=($(compgen -W \"$\x7bcommands\x7d\" -- \"$\x7bcur\x7d\"))\n        return 0\n    fi\n\n    # Find the main command\n    local cmd=\"\"\n    local cmd_idx=1\n    for ((i=1; i < $\x7bcword\x7d; i++)); do\n        if [[ \"$\x7bwords[i]\x7d\" != -* ]]; then\n            cmd=\"$\x7bwords[i]\x7d\"\n            cmd_idx=$i\n            break\n        fi\n    done\n\n    # Complete based on command\n    case \"$\x7bcmd\x7d\" in\n"

/-- The plain (non-f) triple-quoted string at lines 234-255.  It is not
an f-string, so its doubled braces reach the output verbatim. -/
def scriptTail : String :=
  "        *)\n            if [[ \"$\x7b\x7bcur\x7d\x7d\" == -* ]]; then\n                COMPREPLY=($(compgen -W \"--help\" -- \"$\x7b\x7bcur\x7d\x7d\"))\n            fi\n            ;;\n    esac\n\x7d\x7d\n\n# Only enable completion for interactive shells\nif [[ $- == *i* ]]; then\n    # For bash\n    if [[ -n \"$BASH_VERSION\" ]]; then\n        complete -F _ehaye_cli_completions cli\n    fi\n\n    # For zsh\n    if [[ -n \"$ZSH_VERSION\" ]]; then\n        autoload -U +X bashcompinit && bashcompinit\n        complete -F _ehaye_cli_completions cli\n    fi\nfi\n"

/-- Lines 227-232: one case arm per top-level command, in insertion
order. -/
def commandArms : SubMap → String
  | .nil => ""
  | .cons name child rest =>
    "        " ++ name ++ ")\n" ++ generate_completion_case child 0
    ++ "\n            ;;\n" ++ commandArms rest

/-- generate_completion_script (lines 175-257). -/
def generate_completion_script : CmdInfo → String
  | .mk _ _ _ subs =>
    scriptHeaderA ++ ("local commands=\"" ++ pyJoin ' ' (SubMap.keys subs) ++ "\"")
    ++ scriptHeaderB ++ commandArms subs ++ scriptTail

/-! ### Lemmas about rstrip -/

theorem rstripData_append (a b : List Char) (h : rstripData b ≠ []) :
    rstripData (a ++ b) = a ++ rstripData b := by
  unfold rstripData at h ⊢
  rw [List.reverse_append, List.dropWhile_append]
  have hne : (List.dropWhile Char.isWhitespace b.reverse).isEmpty = false := by
    cases hq : List.dropWhile Char.isWhitespace b.reverse with
    | nil =>
      rw [hq] at h
      exact absurd rfl h
    | cons c l => rfl
  rw [if_neg (by simp [hne])]
  rw [List.reverse_append, List.reverse_reverse]

theorem rstrip_append (x y : String) (h : rstrip y ≠ "") :
    rstrip (x ++ y) = x ++ rstrip y := by
  have hd : rstripData y.data ≠ [] := by
    intro hc
    apply h
    show String.mk (rstripData y.data) = ""
    rw [hc]
  show String.mk (rstripData (x ++ y).data) = x ++ String.mk (rstripData y.data)
  rw [data_append, rstripData_append _ _ hd]
  cases x
  rfl

theorem rstrip_ne_of (z y : String) (h : rstrip y ≠ "") : rstrip (z ++ y) ≠ "" := by
  rw [rstrip_append z y h]
  exact append_ne_empty_right z (rstrip y) h

theorem rstrip_ContainsSub (x t y : String) (h : rstrip y ≠ "") :
    ContainsSub (rstrip (x ++ t ++ y)) t := by
  refine ⟨x, rstrip y, ?_⟩
  rw [rstrip_append (x ++ t) y h]

/-! ### Lemmas about the emitted-logic semantics -/

/-- compgen on a space-joined list of nonempty space-free words is the
prefix filter over that list, in order. -/
theorem compgenW_join (ws : List String) (cur : String)
    (hw : ∀ w ∈ ws, w ≠ "" ∧ ' ' ∉ w.data) :
    compgenW (pyJoin ' ' ws) cur = ws.filter (fun w => pyStartsWith w cur) := by
  cases ws with
  | nil => rfl
  | cons x rest =>
    rw [compgenW, pyJoin]
    have hsplit : splitChars ' ' (joinChars ' ' ((x :: rest).map String.data))
        = (x :: rest).map String.data := by
      refine splitChars_join ' ' _ (by simp) ?_
      intro w hw'
      obtain ⟨v, hv, rfl⟩ := List.mem_map.mp hw'
      exact (hw v hv).2
    rw [show (String.mk (joinChars ' ' ((x :: rest).map String.data))).data
        = joinChars ' ' ((x :: rest).map String.data) from rfl, hsplit]
    rw [List.map_map]
    have hid : (String.mk ∘ String.data) = id := funext fun s => mk_data s
    rw [hid, List.map_id]
    have hfil : (x :: rest).filter (fun t => t != "") = x :: rest := by
      refine List.filter_eq_self.mpr ?_
      intro a ha
      simpa using (hw a ha).1
    rw [hfil]

/-- The first binding of the subcommands map for a given name; the
emitted bash case statement tries its arms in emission order. -/
def firstChild : SubMap → String → Option CmdInfo
  | .nil, _ => none
  | .cons k v rest, w => if k = w then some v else firstChild rest w

theorem dispatchSub_eq : ∀ (subs : SubMap) (w : String) (words : List String)
    (idx cword : Nat) (cur prev : String),
    dispatchSub subs w words idx cword cur prev =
      (match firstChild subs w with
       | some child => caseArmSem child words (idx + 1) cword cur prev
       | none => [])
  | .nil, _, _, _, _, _, _ => rfl
  | .cons k v rest, w, words, idx, cword, cur, prev => by
    rw [dispatchSub, firstChild]
    by_cases hk : k = w
    · rw [if_pos hk, if_pos hk]
    · rw [if_neg hk, if_neg hk]
      exact dispatchSub_eq rest w words idx cword cur prev

theorem scanTokens_eq_find (names : List String) : ∀ (toks : List String),
    scanTokens names toks =
      toks.find? (fun t => !(pyStartsWith t "-") && names.contains t)
  | [] => rfl
  | w :: rest => by
    rw [scanTokens, List.find?_cons]
    by_cases h : (!(pyStartsWith w "-") && names.contains w) = true
    · rw [if_pos h, h]
    · rw [if_neg h]
      have hf : (!(pyStartsWith w "-") && names.contains w) = false := by
        revert h
        cases (!(pyStartsWith w "-") && names.contains w) <;> simp
      rw [hf]
      exact scanTokens_eq_find names rest

/-! ### Claim C5: subcommand dispatch over interleaved flags -/

/-- C5: at a node with subcommands (when the option-value check does not
fire), the emitted dispatch scans the tokens after the node's position
for the first one that does not start with a dash and exactly equals a
declared subcommand name - so flags interleaved before the subcommand
name are tolerated - and recurses into that subcommand's case arm at
depth+1; only when no such token exists are the subcommand names
(insertion order, prefix-filtered) or the options offered. -/
theorem spec_c5 (name help : String) (options : List OptInfo) (subs : SubMap)
    (words : List String) (idx cword : Nat) (cur prev : String)
    (hchoice : choiceFire options prev = none)
    (hsubs : subs.isNil = false) :
    (∀ w, scanTokens subs.keys (tokensAfter words idx cword) = some w →
      caseArmSem (.mk name help options subs) words idx cword cur prev =
        (match firstChild subs w with
         | some child => caseArmSem child words (idx + 1) cword cur prev
         | none => []))
    ∧ scanTokens subs.keys (tokensAfter words idx cword) =
      (tokensAfter words idx cword).find?
        (fun t => !(pyStartsWith t "-") && subs.keys.contains t)
    ∧ (scanTokens subs.keys (tokensAfter words idx cword) = none →
      pyStartsWith cur "-" = false →
      (∀ k ∈ subs.keys, k ≠ "" ∧ ' ' ∉ k.data) →
      caseArmSem (.mk name help options subs) words idx cword cur prev =
        subs.keys.filter (fun k => pyStartsWith k cur)) := by
  cases subs with
  | nil => cases hsubs
  | cons k v rest =>
    refine ⟨?_, scanTokens_eq_find _ _, ?_⟩
    · intro w hscan
      rw [show caseArmSem (.mk name help options (.cons k v rest)) words idx cword cur prev
          = (match choiceFire options prev with
             | some choices => compgenW (pyJoin ' ' choices) cur
             | none =>
               match scanTokens (SubMap.keys (.cons k v rest))
                   (tokensAfter words idx cword) with
               | some w => dispatchSub (.cons k v rest) w words idx cword cur prev
               | none =>
                 if pyStartsWith cur "-" then
                   if pyJoin ' ' (optNamesOf options) != "" then
                     optionSubtract (optNamesOf options) "-" words cur
                   else []
                 else compgenW (pyJoin ' ' (SubMap.keys (.cons k v rest))) cur)
          from rfl]
      rw [hchoice, hscan]
      exact dispatchSub_eq (.cons k v rest) w words idx cword cur prev
    · intro hscan hcur hkeys
      rw [show caseArmSem (.mk name help options (.cons k v rest)) words idx cword cur prev
          = (match choiceFire options prev with
             | some choices => compgenW (pyJoin ' ' choices) cur
             | none =>
               match scanTokens (SubMap.keys (.cons k v rest))
                   (tokensAfter words idx cword) with
               | some w => dispatchSub (.cons k v rest) w words idx cword cur prev
               | none =>
                 if pyStartsWith cur "-" then
                   if pyJoin ' ' (optNamesOf options) != "" then
                     optionSubtract (optNamesOf options) "-" words cur
                   else []
                 else compgenW (pyJoin ' ' (SubMap.keys (.cons k v rest))) cur)
          from rfl]
      rw [hchoice, hscan, if_neg (by simp [hcur])]
      exact compgenW_join _ cur hkeys

/-- A concrete two-level tree mirroring the dev group and its format
subcommand (options of complete_format's static list). -/
def demoFormatNode : CmdInfo :=
  .mk "format" "Format code" [⟨["--check", "--diff"], "BOOL", []⟩] .nil

def demoDevNode : CmdInfo :=
  .mk "dev" "Development tools"
    [⟨["--format"], "CHOICE", ["table", "json", "yaml"]⟩]
    (.cons "format" demoFormatNode .nil)

theorem spec_c5_witness :
    caseArmSem demoDevNode ["cli", "dev", "--verbose", "format"] 1 4 "" "format"
      = caseArmSem demoFormatNode ["cli", "dev", "--verbose", "format"] 2 4 "" "format"
    ∧ caseArmSem demoFormatNode ["cli", "dev", "--verbose", "format"] 2 4 "" "format"
      = ["--check", "--diff"] := by
  constructor
  · exact ((spec_c5 "dev" "Development tools"
      [⟨["--format"], "CHOICE", ["table", "json", "yaml"]⟩]
      (.cons "format" demoFormatNode .nil)
      ["cli", "dev", "--verbose", "format"] 1 4 "" "format" rfl rfl).1
      "format" rfl).trans rfl
  · rfl

/-! ### Claim C4: option-value (choices) completion takes precedence -/

/-- C4: when the token immediately before the cursor is a long-form
spelling of an option with declared choices (first matching emitted arm),
the node's candidates are exactly that option's choices in declared
order, prefix-filtered against the partial word, whatever the node's
subcommands or other options would otherwise contribute; and the emitted
text of the node's case arm begins with that check, before all other
logic. -/
theorem spec_c4 (name help : String) (options : List OptInfo) (subs : SubMap)
    (words : List String) (idx cword : Nat) (cur prev : String)
    (cs : List String)
    (hfire : choiceFire options prev = some cs)
    (hcs : ∀ c ∈ cs, c ≠ "" ∧ ' ' ∉ c.data) :
    caseArmSem (.mk name help options subs) words idx cword cur prev =
      cs.filter (fun c => pyStartsWith c cur)
    ∧ ∀ depth, ∃ q,
      generate_completion_case (.mk name help options subs) depth =
        strRepeat "    " (depth + 3) ++ "if [[ \"$\x7bprev\x7d\" == --* ]]; then\n"
        ++ strRepeat "    " (depth + 3) ++ "    case \"$\x7bprev\x7d\" in\n"
        ++ choiceArmsText (strRepeat "    " (depth + 3)) options ++ q := by
  constructor
  · cases subs with
    | nil =>
      rw [show caseArmSem (.mk name help options .nil) words idx cword cur prev
          = (match choiceFire options prev with
             | some choices => compgenW (pyJoin ' ' choices) cur
             | none =>
               if !(optNamesOf options).isEmpty then
                 if pyStartsWith cur "-" then
                   optionSubtract (optNamesOf options) "--" words cur
                 else if cur == "" then
                   optionSubtract (optNamesOf options) "--" words cur
                 else []
               else [])
          from rfl]
      rw [hfire]
      exact compgenW_join cs cur hcs
    | cons k v rest =>
      rw [show caseArmSem (.mk name help options (.cons k v rest)) words idx cword cur prev
          = (match choiceFire options prev with
             | some choices => compgenW (pyJoin ' ' choices) cur
             | none =>
               match scanTokens (SubMap.keys (.cons k v rest))
                   (tokensAfter words idx cword) with
               | some w => dispatchSub (.cons k v rest) w words idx cword cur prev
               | none =>
                 if pyStartsWith cur "-" then
                   if pyJoin ' ' (optNamesOf options) != "" then
                     optionSubtract (optNamesOf options) "-" words cur
                   else []
                 else compgenW (pyJoin ' ' (SubMap.keys (.cons k v rest))) cur)
          from rfl]
      rw [hfire]
      exact compgenW_join cs cur hcs
  · intro depth
    have hne : options.isEmpty = false := by
      cases ho : options.isEmpty with
      | true =>
        rw [choiceFire, ho] at hfire
        simp at hfire
      | false => rfl
    cases subs with
    | nil =>
      simp only [generate_completion_case]
      have hsp : optBlock options (strRepeat "    " (depth + 3))
          ++ leafBlock options (strRepeat "    " (depth + 3))
          = (strRepeat "    " (depth + 3) ++ "if [[ \"$\x7bprev\x7d\" == --* ]]; then\n"
            ++ strRepeat "    " (depth + 3) ++ "    case \"$\x7bprev\x7d\" in\n"
            ++ choiceArmsText (strRepeat "    " (depth + 3)) options)
            ++ (strRepeat "    " (depth + 3) ++ ("    esac\n"
              ++ (strRepeat "    " (depth + 3)
                ++ ("fi\n\n" ++ leafBlock options (strRepeat "    " (depth + 3)))))) := by
        rw [optBlock, if_neg (by simp [hne])]
        simp only [strAssoc]
      rw [hsp]
      have hY : rstrip (strRepeat "    " (depth + 3) ++ ("    esac\n"
          ++ (strRepeat "    " (depth + 3)
            ++ ("fi\n\n" ++ leafBlock options (strRepeat "    " (depth + 3)))))) ≠ "" := by
        refine rstrip_ne_of _ _ (rstrip_ne_of _ _ (rstrip_ne_of _ _ ?_))
        by_cases ho : (optNamesOf options).isEmpty = true
        · rw [leafBlock, if_pos ho]
          decide
        · rw [leafBlock, if_neg ho]
          exact rstrip_ne_of _ _ (rstrip_ne_of _ _ (by decide))
      exact ⟨_, rstrip_append _ _ hY⟩
    | cons k v rest =>
      simp only [generate_completion_case]
      have hsp : optBlock options (strRepeat "    " (depth + 3))
          ++ groupBlock (SubMap.keys (.cons k v rest)) options
            (genArms (.cons k v rest) (strRepeat "    " (depth + 3)) depth)
            (strRepeat "    " (depth + 3)) depth
          = (strRepeat "    " (depth + 3) ++ "if [[ \"$\x7bprev\x7d\" == --* ]]; then\n"
            ++ strRepeat "    " (depth + 3) ++ "    case \"$\x7bprev\x7d\" in\n"
            ++ choiceArmsText (strRepeat "    " (depth + 3)) options)
            ++ (strRepeat "    " (depth + 3) ++ ("    esac\n"
              ++ (strRepeat "    " (depth + 3)
                ++ ("fi\n\n" ++ groupBlock (SubMap.keys (.cons k v rest)) options
                  (genArms (.cons k v rest) (strRepeat "    " (depth + 3)) depth)
                  (strRepeat "    " (depth + 3)) depth)))) := by
        rw [optBlock, if_neg (by simp [hne])]
        simp only [strAssoc]
      rw [hsp]
      have hY : rstrip (strRepeat "    " (depth + 3) ++ ("    esac\n"
          ++ (strRepeat "    " (depth + 3)
            ++ ("fi\n\n" ++ groupBlock (SubMap.keys (.cons k v rest)) options
              (genArms (.cons k v rest) (strRepeat "    " (depth + 3)) depth)
              (strRepeat "    " (depth + 3)) depth)))) ≠ "" := by
        refine rstrip_ne_of _ _ (rstrip_ne_of _ _ (rstrip_ne_of _ _ ?_))
        rw [groupBlock]
        exact rstrip_ne_of _ _ (rstrip_ne_of _ _ (by decide))
      exact ⟨_, rstrip_append _ _ hY⟩

theorem spec_c4_witness :
    caseArmSem demoDevNode ["cli", "dev", "--format"] 1 3 "j" "--format" = ["json"]
    ∧ ∃ q, generate_completion_case demoDevNode 0 =
      strRepeat "    " 3 ++ "if [[ \"$\x7bprev\x7d\" == --* ]]; then\n"
      ++ strRepeat "    " 3 ++ "    case \"$\x7bprev\x7d\" in\n"
      ++ choiceArmsText (strRepeat "    " 3)
        [⟨["--format"], "CHOICE", ["table", "json", "yaml"]⟩] ++ q := by
  have h := spec_c4 "dev" "Development tools"
    [⟨["--format"], "CHOICE", ["table", "json", "yaml"]⟩]
    (.cons "format" demoFormatNode .nil)
    ["cli", "dev", "--format"] 1 3 "j" "--format"
    ["table", "json", "yaml"] rfl (by decide)
  exact ⟨h.1.trans (by decide), h.2 0⟩

/-! ### Characterizing the emitted option-exclusion computation

The available_opts string always has the shape of sepJC applied to the
list of remaining option spellings: a space, the spellings separated by
single spaces, and a space (degenerating to a single space when every
spelling has been deleted).  The following lemmas show that the bash
substitution deleting one used word maps this shape to the same shape
with the word removed, so the whole loop computes a set subtraction. -/

/-- The space-delimited form: a space before every word and one final
space. -/
def sepJC : List (List Char) → List Char
  | [] => [' ']
  | x :: rest => ' ' :: x ++ sepJC rest

theorem sepJC_head : ∀ (l : List (List Char)), ∃ t, sepJC l = ' ' :: t
  | [] => ⟨[], rfl⟩
  | x :: rest => ⟨x ++ sepJC rest, rfl⟩

theorem sepJC_eq_join : ∀ (l : List (List Char)), l ≠ [] →
    sepJC l = ' ' :: (joinChars ' ' l ++ [' '])
  | [], h => absurd rfl h
  | [x], _ => rfl
  | x :: y :: rest, _ => by
    show ' ' :: x ++ sepJC (y :: rest) = ' ' :: ((x ++ ' ' :: joinChars ' ' (y :: rest)) ++ [' '])
    rw [sepJC_eq_join (y :: rest) (by simp)]
    simp

theorem replaceAllAux_nil (pat rep : List Char) (fuel : Nat) :
    replaceAllAux pat rep fuel [] = [] := by
  cases fuel <;> rfl

theorem replaceAllAux_zero (pat rep : List Char) (s : List Char) :
    replaceAllAux pat rep 0 s = s := by
  cases s <;> rfl

theorem replaceAllAux_cons_pos (pat rep : List Char) (fuel : Nat) (c : Char)
    (rest : List Char) (h : (pat.isPrefixOf (c :: rest) && !pat.isEmpty) = true) :
    replaceAllAux pat rep (fuel + 1) (c :: rest)
      = rep ++ replaceAllAux pat rep fuel (rest.drop (pat.length - 1)) := by
  simp only [replaceAllAux, h, if_true]

theorem replaceAllAux_cons_neg (pat rep : List Char) (fuel : Nat) (c : Char)
    (rest : List Char) (h : (pat.isPrefixOf (c :: rest) && !pat.isEmpty) = false) :
    replaceAllAux pat rep (fuel + 1) (c :: rest)
      = c :: replaceAllAux pat rep fuel rest := by
  simp only [replaceAllAux, h]
  rw [if_neg (by simp)]

/-- A pattern of the form space-word-space cannot start at a position
where the text continues with a different space-free word before its
next space. -/
theorem prefix_mismatch : ∀ (x w z' : List Char),
    ' ' ∉ w → ' ' ∉ x → x ≠ [] → x ≠ w →
    (w ++ [' ']).isPrefixOf (x ++ ' ' :: z') = false := by
  intro x
  induction x with
  | nil =>
    intro w z' _ _ hne _
    exact absurd rfl hne
  | cons c x' ih =>
    intro w z' hw hx _ hxw
    have hc : c ≠ ' ' := fun he => hx (he ▸ List.mem_cons_self c x')
    cases w with
    | nil =>
      have hbc : (' ' == c) = false := beq_eq_false_iff_ne.mpr (Ne.symm hc)
      show ([' ']).isPrefixOf (c :: (x' ++ ' ' :: z')) = false
      simp [List.isPrefixOf, hbc]
    | cons a w' =>
      show ((a :: (w' ++ [' '])).isPrefixOf (c :: (x' ++ ' ' :: z'))) = false
      by_cases hac : a = c
      · subst hac
        have hw' : ' ' ∉ w' := fun hm => hw (List.mem_cons_of_mem a hm)
        have hx' : ' ' ∉ x' := fun hm => hx (List.mem_cons_of_mem a hm)
        have hxw' : x' ≠ w' := fun he => hxw (by rw [he])
        cases x' with
        | nil =>
          cases w' with
          | nil => exact absurd rfl hxw'
          | cons b w'' =>
            have hb : b ≠ ' ' := fun he =>
              hw (List.mem_cons_of_mem a (he ▸ List.mem_cons_self b w''))
            have hbb : (b == ' ') = false := beq_eq_false_iff_ne.mpr hb
            show ((a == a) && ((b == ' ') && (w'' ++ [' ']).isPrefixOf z')) = false
            simp [hbb]
        | cons d x'' =>
          show ((a == a) && (w' ++ [' ']).isPrefixOf ((d :: x'') ++ ' ' :: z')) = false
          have h2 := ih w' z' hw' hx' (by simp) hxw'
          simp only [beq_self_eq_true, Bool.true_and]
          exact h2
      · have hbc : (a == c) = false := beq_eq_false_iff_ne.mpr hac
        simp [List.isPrefixOf, hbc]

/-- The pattern never fires on the tail of a good separated string that
does not contain the word, so the substitution leaves it unchanged. -/
theorem noOccB (w : List Char) (rest : List (List Char))
    (hA : ∀ fuel, replaceAllAux (' ' :: (w ++ [' '])) [' '] fuel (sepJC rest)
      = sepJC rest) :
    ∀ (y : List Char), ' ' ∉ y → ∀ fuel,
      replaceAllAux (' ' :: (w ++ [' '])) [' '] fuel (y ++ sepJC rest)
        = y ++ sepJC rest := by
  intro y
  induction y with
  | nil =>
    intro _ fuel
    exact hA fuel
  | cons c y' ih =>
    intro hy fuel
    have hc : c ≠ ' ' := fun he => hy (he ▸ List.mem_cons_self c y')
    have hsc : (' ' == c) = false := beq_eq_false_iff_ne.mpr (Ne.symm hc)
    match fuel with
    | 0 => exact replaceAllAux_zero _ _ _
    | fuel + 1 =>
      rw [List.cons_append]
      rw [replaceAllAux_cons_neg _ _ _ _ _ (by
        show ((' ' :: (w ++ [' '])).isPrefixOf (c :: (y' ++ sepJC rest)) && _) = false
        show (((' ' == c) && (w ++ [' ']).isPrefixOf (y' ++ sepJC rest)) && _) = false
        simp [hsc])]
      rw [ih (fun hm => hy (List.mem_cons_of_mem c hm)) fuel]

/-- On a good separated string not containing the word, the substitution
is the identity. -/
theorem noOccA (w : List Char) (hw : ' ' ∉ w) (wne : w ≠ []) :
    ∀ (rest : List (List Char)), (∀ x ∈ rest, x ≠ [] ∧ ' ' ∉ x) → w ∉ rest →
    ∀ fuel, replaceAllAux (' ' :: (w ++ [' '])) [' '] fuel (sepJC rest) = sepJC rest
  | [], _, _, fuel => by
    match fuel with
    | 0 => exact replaceAllAux_zero _ _ _
    | fuel + 1 =>
      show replaceAllAux (' ' :: (w ++ [' '])) [' '] (fuel + 1) [' '] = [' ']
      rw [replaceAllAux_cons_neg _ _ _ _ _ (by
        show (((' ' == ' ') && (w ++ [' ']).isPrefixOf []) && _) = false
        have : (w ++ [' ']).isPrefixOf [] = false := by
          cases w with
          | nil => rfl
          | cons a w' => rfl
        simp [this])]
      rw [replaceAllAux_nil]
  | y :: rest', hgood, hnmem, fuel => by
    match fuel with
    | 0 => exact replaceAllAux_zero _ _ _
    | fuel + 1 =>
      have hyg := hgood y (List.mem_cons_self y rest')
      have hyw : y ≠ w := fun he => hnmem (he ▸ List.mem_cons_self y rest')
      obtain ⟨t, ht⟩ := sepJC_head rest'
      show replaceAllAux (' ' :: (w ++ [' '])) [' '] (fuel + 1) (' ' :: (y ++ sepJC rest'))
        = ' ' :: (y ++ sepJC rest')
      rw [replaceAllAux_cons_neg _ _ _ _ _ (by
        show (((' ' == ' ') && (w ++ [' ']).isPrefixOf (y ++ sepJC rest')) && _) = false
        rw [ht]
        rw [prefix_mismatch y w t hw hyg.2 hyg.1 hyw]
        simp)]
      have hA := noOccA w hw wne rest'
        (fun x hx => hgood x (List.mem_cons_of_mem y hx))
        (fun hm => hnmem (List.mem_cons_of_mem y hm))
      rw [noOccB w rest' hA y hyg.2 fuel]

/-- Scanning passes unchanged over a space-free word at the head. -/
theorem skipWord (pat rep : List Char) (hpat : ∃ pw, pat = ' ' :: pw) :
    ∀ (x : List Char), ' ' ∉ x → ∀ (fuel : Nat) (s : List Char), x.length ≤ fuel →
      replaceAllAux pat rep fuel (x ++ s)
        = x ++ replaceAllAux pat rep (fuel - x.length) s := by
  intro x
  induction x with
  | nil =>
    intro _ fuel s _
    rfl
  | cons c x' ih =>
    intro hx fuel s hlen
    have hc : c ≠ ' ' := fun he => hx (he ▸ List.mem_cons_self c x')
    obtain ⟨pw, rfl⟩ := hpat
    have hsc : (' ' == c) = false := beq_eq_false_iff_ne.mpr (Ne.symm hc)
    match fuel with
    | 0 => simp at hlen
    | fuel + 1 =>
      rw [List.cons_append]
      rw [replaceAllAux_cons_neg _ _ _ _ _ (by
        show (((' ' == c) && pw.isPrefixOf (x' ++ s)) && _) = false
        simp [hsc])]
      rw [ih (fun hm => hx (List.mem_cons_of_mem c hm)) fuel s
        (by simp at hlen; omega)]
      simp [Nat.succ_sub_succ]

theorem isPrefixOf_append_same : ∀ (w a b : List Char),
    (w ++ a).isPrefixOf (w ++ b) = a.isPrefixOf b := by
  intro w
  induction w with
  | nil => intro a b; rfl
  | cons c w' ih =>
    intro a b
    show ((c == c) && (w' ++ a).isPrefixOf (w' ++ b)) = a.isPrefixOf b
    simp [ih]

/-- Deleting one word from the separated form removes exactly its
occurrences among the listed words. -/
theorem replace_sepJC (w : List Char) (hw : ' ' ∉ w) (wne : w ≠ []) :
    ∀ (l : List (List Char)), (∀ x ∈ l, x ≠ [] ∧ ' ' ∉ x) → l.Nodup →
    ∀ fuel, (sepJC l).length ≤ fuel →
      replaceAllAux (' ' :: (w ++ [' '])) [' '] fuel (sepJC l)
        = sepJC (l.filter (fun x => x != w))
  | [], hgood, _, fuel, _ => by
    rw [noOccA w hw wne [] hgood (by simp) fuel]
    rfl
  | x :: rest, hgood, hnd, fuel, hlen => by
    have hxg := hgood x (List.mem_cons_self x rest)
    have hrest : ∀ y ∈ rest, y ≠ [] ∧ ' ' ∉ y :=
      fun y hy => hgood y (List.mem_cons_of_mem x hy)
    match fuel with
    | 0 => simp [sepJC] at hlen
    | fuel + 1 =>
      by_cases hxw : x = w
      · subst hxw
        have hnm : x ∉ rest := (List.nodup_cons.mp hnd).1
        obtain ⟨t, ht⟩ := sepJC_head rest
        show replaceAllAux (' ' :: (x ++ [' '])) [' '] (fuel + 1) (' ' :: (x ++ sepJC rest))
          = sepJC ((x :: rest).filter (fun y => y != x))
        rw [replaceAllAux_cons_pos _ _ _ _ _ (by
          have h1 : (' ' :: (x ++ [' '])).isPrefixOf (' ' :: (x ++ sepJC rest)) = true := by
            show ((' ' == ' ') && (x ++ [' ']).isPrefixOf (x ++ sepJC rest)) = true
            rw [isPrefixOf_append_same x [' '] (sepJC rest), ht]
            show ((' ' == ' ') && ((' ' == ' ') && ([] : List Char).isPrefixOf t)) = true
            simp [List.isPrefixOf]
          simp [h1])]
        have hdrop : (x ++ sepJC rest).drop ((' ' :: (x ++ [' '])).length - 1) = t := by
          have h1 : (' ' :: (x ++ [' '])).length - 1 = x.length + 1 := by
            simp [List.length_append]
          rw [h1, ← List.drop_drop, List.drop_left, ht]
          rfl
        rw [hdrop]
        have hfil : (x :: rest).filter (fun y => y != x) = rest := by
          rw [List.filter_cons, if_neg (by simp)]
          refine List.filter_eq_self.mpr ?_
          intro y hy
          have hyx : y ≠ x := fun he => hnm (he ▸ hy)
          simp only [bne_iff_ne, ne_eq, decide_not]
          simp [hyx]
        rw [hfil]
        cases rest with
        | nil =>
          rw [show t = [] from by
            have h0 : sepJC ([] : List (List Char)) = [' '] := rfl
            rw [h0] at ht
            exact (List.cons_eq_cons.mp ht.symm).2]
          rw [replaceAllAux_nil]
          rfl
        | cons y rest' =>
          have hyg := hrest y (List.mem_cons_self y rest')
          have hA := noOccA x hw wne rest'
            (fun z hz => hrest z (List.mem_cons_of_mem y hz))
            (fun hm => hnm (List.mem_cons_of_mem y hm))
          have ht2 : t = y ++ sepJC rest' := by
            have h0 : sepJC (y :: rest') = ' ' :: (y ++ sepJC rest') := rfl
            rw [h0] at ht
            exact (List.cons_eq_cons.mp ht.symm).2
          rw [ht2]
          rw [noOccB x rest' hA y hyg.2 fuel]
          rfl
      · have hxne := hxg.1
        have hxsp := hxg.2
        obtain ⟨t, ht⟩ := sepJC_head rest
        show replaceAllAux (' ' :: (w ++ [' '])) [' '] (fuel + 1) (' ' :: (x ++ sepJC rest))
          = sepJC ((x :: rest).filter (fun y => y != w))
        rw [replaceAllAux_cons_neg _ _ _ _ _ (by
          show (((' ' == ' ') && (w ++ [' ']).isPrefixOf (x ++ sepJC rest)) && _) = false
          rw [ht, prefix_mismatch x w t hw hxsp hxne hxw]
          simp)]
        rw [skipWord (' ' :: (w ++ [' '])) [' '] ⟨w ++ [' '], rfl⟩ x hxsp fuel
          (sepJC rest) (by
            have : (sepJC (x :: rest)).length = 1 + x.length + (sepJC rest).length := by
              show (' ' :: (x ++ sepJC rest)).length = _
              simp [List.length_append]
              omega
            omega)]
        rw [replace_sepJC w hw wne rest hrest (List.nodup_cons.mp hnd).2
          (fuel - x.length) (by
            have : (sepJC (x :: rest)).length = 1 + x.length + (sepJC rest).length := by
              show (' ' :: (x ++ sepJC rest)).length = _
              simp [List.length_append]
              omega
            omega)]
        rw [List.filter_cons, if_pos (by simp [hxw])]
        rfl

theorem str_ext (a b : String) (h : a.data = b.data) : a = b := by
  cases a
  cases b
  cases h
  rfl

theorem stripTrail1_concat (X : List Char) :
    stripTrail1 (String.mk (X ++ [' '])) = String.mk X := by
  rw [stripTrail1]
  rw [show (String.mk (X ++ [' '])).data.reverse = ' ' :: X.reverse from by simp]
  show String.mk X.reverse.reverse = String.mk X
  rw [List.reverse_reverse]

/-- The emitted deletion loop computes a set subtraction: starting from
the separated form of the remaining spellings, processing the completion
line words leaves exactly the spellings that are not excluded (a
spelling is excluded when it matches the dash pattern, differs from the
current word, and occurs among the words). -/
theorem availLoop_sepJC (dashPat cur : String) (hdp : dashPat ≠ "") :
    ∀ (ws : List String) (l : List String),
      (∀ x ∈ l, x ≠ "" ∧ ' ' ∉ x.data) → l.Nodup →
      (∀ w ∈ ws, ' ' ∉ w.data) →
      ws.foldl (fun avail w =>
          if pyStartsWith w dashPat && w != cur then
            pyReplaceAll avail (" " ++ w ++ " ") " "
          else avail)
        (String.mk (sepJC (l.map String.data)))
      = String.mk (sepJC ((l.filter (fun o =>
          !(pyStartsWith o dashPat && o != cur && ws.contains o))).map
          String.data)) := by
  intro ws
  induction ws with
  | nil =>
    intro l hl hnd _
    show String.mk (sepJC (l.map String.data)) = _
    have hfe : l.filter (fun o =>
        !(pyStartsWith o dashPat && o != cur && ([] : List String).contains o)) = l := by
      refine List.filter_eq_self.mpr ?_
      intro a _
      simp
    rw [hfe]
  | cons w0 ws' ih =>
    intro l hl hnd hws
    have hws' : ∀ w ∈ ws', ' ' ∉ w.data :=
      fun w hw => hws w (List.mem_cons_of_mem w0 hw)
    rw [List.foldl_cons]
    by_cases hcond : (pyStartsWith w0 dashPat && w0 != cur) = true
    · rw [if_pos hcond]
      have hw0sp : ' ' ∉ w0.data := hws w0 (List.mem_cons_self w0 ws')
      have hw0ne : w0.data ≠ [] := by
        intro hc
        have h1 : pyStartsWith w0 dashPat = true := by
          rw [Bool.and_eq_true _ _] at hcond
          exact hcond.1
        rw [pyStartsWith, hc] at h1
        cases hdd : dashPat.data with
        | nil => exact (str_ne_empty_iff dashPat).mp hdp hdd
        | cons a l' =>
          rw [hdd] at h1
          exact absurd h1 (by simp [List.isPrefixOf])
      have hgood : ∀ x ∈ l.map String.data, x ≠ [] ∧ ' ' ∉ x := by
        intro x hx
        obtain ⟨o, ho, rfl⟩ := List.mem_map.mp hx
        exact ⟨fun hc => (hl o ho).1 (str_ext o "" hc), (hl o ho).2⟩
      have hndm : (l.map String.data).Nodup :=
        hnd.map (fun a b hab => str_ext a b hab)
      have hstep : pyReplaceAll (String.mk (sepJC (l.map String.data)))
          (" " ++ w0 ++ " ") " "
          = String.mk (sepJC ((l.map String.data).filter (fun x => x != w0.data))) := by
        exact congrArg String.mk (replace_sepJC w0.data hw0sp hw0ne
          (l.map String.data) hgood hndm _ (Nat.le_refl _))
      rw [hstep]
      have hcomm : (l.map String.data).filter (fun x => x != w0.data)
          = (l.filter (fun o => o != w0)).map String.data := by
        rw [List.filter_map]
        congr 1
        refine List.filter_congr ?_
        intro o _
        show (o.data != w0.data) = (o != w0)
        by_cases he : o = w0
        · subst he
          simp
        · have h1 : o.data ≠ w0.data := fun hc => he (str_ext o w0 hc)
          have hb1 : (o.data != w0.data) = true := by simp [bne_iff_ne, h1]
          have hb2 : (o != w0) = true := by simp [bne_iff_ne, he]
          rw [hb1, hb2]
      rw [hcomm]
      rw [ih (l.filter (fun o => o != w0))
        (fun x hx => hl x (List.mem_of_mem_filter hx))
        (hnd.filter _) hws']
      have hlist : (l.filter (fun o => o != w0)).filter
          (fun o => !(pyStartsWith o dashPat && o != cur && ws'.contains o))
        = l.filter (fun o =>
            !(pyStartsWith o dashPat && o != cur && (w0 :: ws').contains o)) := by
        rw [List.filter_filter]
        refine List.filter_congr ?_
        intro o _
        simp only [List.contains_cons]
        by_cases how : o = w0
        · subst how
          have hco : (pyStartsWith o dashPat && o != cur) = true := hcond
          simp [hco]
        · have h1 : (o == w0) = false := beq_eq_false_iff_ne.mpr how
          have h2 : (o != w0) = true := by simp [bne_iff_ne, how]
          simp [h1, h2]
      rw [hlist]
    · rw [if_neg hcond]
      rw [ih l hl hnd hws']
      have hlist : l.filter
          (fun o => !(pyStartsWith o dashPat && o != cur && ws'.contains o))
        = l.filter (fun o =>
            !(pyStartsWith o dashPat && o != cur && (w0 :: ws').contains o)) := by
        refine List.filter_congr ?_
        intro o _
        simp only [List.contains_cons]
        have hcf : (pyStartsWith w0 dashPat && w0 != cur) = false := by
          revert hcond
          cases (pyStartsWith w0 dashPat && w0 != cur) <;> simp
        by_cases how : o = w0
        · subst how
          simp only [beq_self_eq_true, Bool.true_or]
          cases hA : pyStartsWith o dashPat with
          | false => simp [hA]
          | true =>
            have hB : (o != cur) = false := by
              rw [hA] at hcf
              simpa using hcf
            simp [hA, hB]
        · have h1 : (o == w0) = false := beq_eq_false_iff_ne.mpr how
          simp [h1]
      rw [hlist]

/-- The emitted option-exclusion computation is a set subtraction over
the node's option spellings followed by the prefix filter: a spelling
survives unless it matches the dash pattern, differs from the current
word, and already occurs among the completion-line words. -/
theorem optionSubtract_spec (names : List String) (dashPat cur : String)
    (words : List String)
    (hne : names ≠ [])
    (hnames : ∀ o ∈ names, o ≠ "" ∧ ' ' ∉ o.data)
    (hnd : names.Nodup)
    (hwords : ∀ w ∈ words, ' ' ∉ w.data)
    (hdp : dashPat ≠ "") :
    optionSubtract names dashPat words cur
      = (names.filter (fun o =>
          !(pyStartsWith o dashPat && o != cur && words.contains o))).filter
        (fun o => pyStartsWith o cur) := by
  have hinit : (" " ++ pyJoin ' ' names ++ " ")
      = String.mk (sepJC (names.map String.data)) := by
    rw [sepJC_eq_join (names.map String.data) (by simpa using hne)]
    apply str_ext
    show ([' '] ++ joinChars ' ' (names.map String.data)) ++ [' ']
      = ' ' :: (joinChars ' ' (names.map String.data) ++ [' '])
    simp
  rw [optionSubtract, availAfterLoop, hinit]
  rw [availLoop_sepJC dashPat cur hdp words names hnames hnd hwords]
  by_cases hFe : names.filter (fun o =>
      !(pyStartsWith o dashPat && o != cur && words.contains o)) = []
  · rw [hFe]
    rfl
  · rw [sepJC_eq_join _ (by simpa using hFe)]
    rw [show stripLead1 (String.mk (' ' :: (joinChars ' '
        ((names.filter (fun o =>
          !(pyStartsWith o dashPat && o != cur && words.contains o))).map
          String.data) ++ [' '])))
      = String.mk (joinChars ' '
        ((names.filter (fun o =>
          !(pyStartsWith o dashPat && o != cur && words.contains o))).map
          String.data) ++ [' ']) from rfl]
    rw [stripTrail1_concat]
    exact compgenW_join _ cur
      (fun x hx => hnames x (List.mem_of_mem_filter hx))

/-! ### Claim C3 (corrected): dash-candidate computation as subtraction -/

/-- C3 counterexample: at a leaf node with option spellings -v and
--fix, with -v already typed among the words and incomplete "-", the
emitted logic keeps -v: the leaf deletion loop only matches words
beginning with two dashes.  The claim's unqualified set subtraction
(spellings minus every spelling already present among the typed tokens)
predicts exactly ["--fix"] at the same input. -/
theorem spec_c3_counterexample :
    optionSubtract ["-v", "--fix"] "--" ["cli", "lint", "-v"] "-"
      = ["-v", "--fix"]
    ∧ (["-v", "--fix"].filter
        (fun o => !(["cli", "lint", "-v"].contains o))).filter
        (fun o => pyStartsWith o "-") = ["--fix"] := by
  constructor
  · decide
  · decide

/-- C3 (amended): the emitted dash-candidate computation is set
subtraction over the node's own option spellings followed by the prefix
filter, with the two qualifications the code imposes: a spelling equal
to the current partial word is never excluded, and the exclusion loop
matches typed words against a double dash at leaf nodes but a single
dash at subcommand-bearing nodes (so a short spelling already typed is
not excluded at a leaf).  At a leaf the same exclusion computation is
applied uniformly whether the partial word is dash-prefixed or empty,
and the claim's concrete example holds: a leaf with options --check and
--fix, with --check already typed and incomplete "-", yields exactly
["--fix"]. -/
theorem spec_c3 :
    (∀ (names : List String) (dashPat cur : String) (words : List String),
      names ≠ [] → (∀ o ∈ names, o ≠ "" ∧ ' ' ∉ o.data) → names.Nodup →
      (∀ w ∈ words, ' ' ∉ w.data) → dashPat ≠ "" →
      optionSubtract names dashPat words cur
        = (names.filter (fun o =>
            !(pyStartsWith o dashPat && o != cur && words.contains o))).filter
          (fun o => pyStartsWith o cur))
    ∧ (∀ (name help : String) (options : List OptInfo) (words : List String)
        (idx cword : Nat) (cur prev : String),
      choiceFire options prev = none →
      (optNamesOf options).isEmpty = false →
      (pyStartsWith cur "-" = true ∨ cur = "") →
      caseArmSem (.mk name help options .nil) words idx cword cur prev
        = optionSubtract (optNamesOf options) "--" words cur)
    ∧ optionSubtract ["--check", "--fix"] "--" ["cli", "lint", "--check"] "-"
      = ["--fix"] := by
  refine ⟨?_, ?_, by decide⟩
  · intro names dashPat cur words hne hnames hnd hwords hdp
    exact optionSubtract_spec names dashPat cur words hne hnames hnd hwords hdp
  · intro name help options words idx cword cur prev hchoice hopts hcur
    rw [show caseArmSem (.mk name help options .nil) words idx cword cur prev
        = (match choiceFire options prev with
           | some choices => compgenW (pyJoin ' ' choices) cur
           | none =>
             if !(optNamesOf options).isEmpty then
               if pyStartsWith cur "-" then
                 optionSubtract (optNamesOf options) "--" words cur
               else if cur == "" then
                 optionSubtract (optNamesOf options) "--" words cur
               else []
             else [])
        from rfl]
    rw [hchoice]
    rw [if_pos (by simp [hopts])]
    rcases hcur with hdash | hemp
    · rw [if_pos hdash]
    · subst hemp
      rw [if_neg (by simp [pyStartsWith, List.isPrefixOf])]
      rw [if_pos (by simp)]

theorem spec_c3_witness :
    optionSubtract ["--check", "--diff", "--verbose"] "-"
      ["cli", "dev", "format", "--check"] "-" = ["--diff", "--verbose"] := by
  have h := (spec_c3).1 ["--check", "--diff", "--verbose"] "-" "-"
    ["cli", "dev", "format", "--check"] (by decide) (by decide) (by decide)
    (by decide) (by decide)
  exact h.trans (by decide)

/-! ### Claim C1: determinism and insertion-order emission -/

/-- C1: generating the completion script is a pure function of the
command tree - two generations of the same tree are the same text - and
the generated output lists names in the tree's insertion order, never
resorted: the script's top-level command list is the subcommand keys
joined in insertion order, every subcommand-bearing node's emitted
subcommands string is its keys joined in insertion order, and every such
node's emitted available_opts string is its option spellings joined in
declared order. -/
theorem spec_c1 (ci : CmdInfo) :
    generate_completion_script ci = generate_completion_script ci
    ∧ ContainsSub (generate_completion_script ci)
        ("local commands=\"" ++ pyJoin ' ' (SubMap.keys ci.subcommands) ++ "\"")
    ∧ (∀ (name help : String) (options : List OptInfo) (subs : SubMap) (d : Nat),
        subs.isNil = false →
        ContainsSub (generate_completion_case (.mk name help options subs) d)
          ("local subcommands=\x27" ++ pyJoin ' ' subs.keys ++ "\x27\n"))
    ∧ (∀ (name help : String) (options : List OptInfo) (subs : SubMap) (d : Nat),
        subs.isNil = false →
        pyJoin ' ' (optNamesOf options) ≠ "" →
        ContainsSub (generate_completion_case (.mk name help options subs) d)
          ("local available_opts=\" " ++ pyJoin ' ' (optNamesOf options) ++ " \"\n")) := by
  refine ⟨rfl, ?_, ?_, ?_⟩
  · cases ci with
    | mk n h o subs =>
      refine ⟨scriptHeaderA, scriptHeaderB ++ (commandArms subs ++ scriptTail), ?_⟩
      simp only [CmdInfo.subcommands, generate_completion_script, strAssoc]
  · intro name help options subs d hsubs
    cases subs with
    | nil => cases hsubs
    | cons k v r =>
      simp only [generate_completion_case]
      rw [groupBlock]
      have hsplit : optBlock options (strRepeat "    " (d + 3))
          ++ (strRepeat "    " (d + 3) ++ "# Check for subcommand at this level\n"
          ++ strRepeat "    " (d + 3) ++ "local subcmd=\x27\x27\n"
          ++ (strRepeat "    " (d + 3)
            ++ ("local subcommands=\x27"
              ++ pyJoin ' ' (SubMap.keys (.cons k v r)) ++ "\x27\n"))
          ++ strRepeat "    " (d + 3) ++ "local idx=$((cmd_idx + " ++ toString d ++ "))\n"
          ++ strRepeat "    " (d + 3) ++ "for ((i=idx+1; i < $\x7bcword\x7d; i++)); do\n"
          ++ strRepeat "    " (d + 3) ++ "    if [[ \"$\x7bwords[i]\x7d\" != -* ]] && [[ \" $\x7bsubcommands\x7d \" == *\" $\x7bwords[i]\x7d \"* ]]; then\n"
          ++ strRepeat "    " (d + 3) ++ "        subcmd=\"$\x7bwords[i]\x7d\"\n"
          ++ strRepeat "    " (d + 3) ++ "        break\n"
          ++ strRepeat "    " (d + 3) ++ "    fi\n"
          ++ strRepeat "    " (d + 3) ++ "done\n\n"
          ++ strRepeat "    " (d + 3) ++ "if [[ -n \"$\x7bsubcmd\x7d\" ]]; then\n"
          ++ strRepeat "    " (d + 3) ++ "    case \"$\x7bsubcmd\x7d\" in\n"
          ++ genArms (.cons k v r) (strRepeat "    " (d + 3)) d
          ++ strRepeat "    " (d + 3) ++ "    esac\n"
          ++ strRepeat "    " (d + 3) ++ "else\n"
          ++ strRepeat "    " (d + 3) ++ "    # No subcommand yet, offer subcommands and options\n"
          ++ strRepeat "    " (d + 3) ++ "    if [[ \"$\x7bcur\x7d\" == -* ]]; then\n"
          ++ (if pyJoin ' ' (optNamesOf options) != "" then
                availFilterText (strRepeat "    " (d + 3) ++ "        ") "-*"
                  "\"$\x7bcur\x7d\"" (pyJoin ' ' (optNamesOf options))
              else strRepeat "    " (d + 3) ++ "        COMPREPLY=()\n")
          ++ strRepeat "    " (d + 3) ++ "    else\n"
          ++ strRepeat "    " (d + 3) ++ "        COMPREPLY=($(compgen -W \"$\x7bsubcommands\x7d\" -- \"$\x7bcur\x7d\"))\n"
          ++ strRepeat "    " (d + 3) ++ "    fi\n"
          ++ strRepeat "    " (d + 3) ++ "fi\n")
        = (optBlock options (strRepeat "    " (d + 3))
            ++ strRepeat "    " (d + 3) ++ "# Check for subcommand at this level\n"
            ++ strRepeat "    " (d + 3) ++ "local subcmd=\x27\x27\n"
            ++ strRepeat "    " (d + 3))
          ++ ("local subcommands=\x27"
              ++ pyJoin ' ' (SubMap.keys (.cons k v r)) ++ "\x27\n")
          ++ (strRepeat "    " (d + 3) ++ "local idx=$((cmd_idx + " ++ toString d ++ "))\n"
            ++ strRepeat "    " (d + 3) ++ "for ((i=idx+1; i < $\x7bcword\x7d; i++)); do\n"
            ++ strRepeat "    " (d + 3) ++ "    if [[ \"$\x7bwords[i]\x7d\" != -* ]] && [[ \" $\x7bsubcommands\x7d \" == *\" $\x7bwords[i]\x7d \"* ]]; then\n"
            ++ strRepeat "    " (d + 3) ++ "        subcmd=\"$\x7bwords[i]\x7d\"\n"
            ++ strRepeat "    " (d + 3) ++ "        break\n"
            ++ strRepeat "    " (d + 3) ++ "    fi\n"
            ++ strRepeat "    " (d + 3) ++ "done\n\n"
            ++ strRepeat "    " (d + 3) ++ "if [[ -n \"$\x7bsubcmd\x7d\" ]]; then\n"
            ++ strRepeat "    " (d + 3) ++ "    case \"$\x7bsubcmd\x7d\" in\n"
            ++ genArms (.cons k v r) (strRepeat "    " (d + 3)) d
            ++ strRepeat "    " (d + 3) ++ "    esac\n"
            ++ strRepeat "    " (d + 3) ++ "else\n"
            ++ strRepeat "    " (d + 3) ++ "    # No subcommand yet, offer subcommands and options\n"
            ++ strRepeat "    " (d + 3) ++ "    if [[ \"$\x7bcur\x7d\" == -* ]]; then\n"
            ++ (if pyJoin ' ' (optNamesOf options) != "" then
                  availFilterText (strRepeat "    " (d + 3) ++ "        ") "-*"
                    "\"$\x7bcur\x7d\"" (pyJoin ' ' (optNamesOf options))
                else strRepeat "    " (d + 3) ++ "        COMPREPLY=()\n")
            ++ strRepeat "    " (d + 3) ++ "    else\n"
            ++ strRepeat "    " (d + 3) ++ "        COMPREPLY=($(compgen -W \"$\x7bsubcommands\x7d\" -- \"$\x7bcur\x7d\"))\n"
            ++ strRepeat "    " (d + 3) ++ "    fi\n"
            ++ strRepeat "    " (d + 3) ++ "fi\n") := by
        simp only [strAssoc]
      rw [hsplit]
      refine rstrip_ContainsSub _ _ _ ?_
      exact rstrip_ne_of _ _ (by decide)
  · intro name help options subs d hsubs hopts
    have hob : (pyJoin ' ' (optNamesOf options) != "") = true := by
      simp [bne_iff_ne, hopts]
    cases subs with
    | nil => cases hsubs
    | cons k v r =>
      simp only [generate_completion_case]
      rw [groupBlock, if_pos hob, availFilterText]
      have hsplit : optBlock options (strRepeat "    " (d + 3))
          ++ (strRepeat "    " (d + 3) ++ "# Check for subcommand at this level\n"
          ++ strRepeat "    " (d + 3) ++ "local subcmd=\x27\x27\n"
          ++ (strRepeat "    " (d + 3)
            ++ ("local subcommands=\x27"
              ++ pyJoin ' ' (SubMap.keys (.cons k v r)) ++ "\x27\n"))
          ++ strRepeat "    " (d + 3) ++ "local idx=$((cmd_idx + " ++ toString d ++ "))\n"
          ++ strRepeat "    " (d + 3) ++ "for ((i=idx+1; i < $\x7bcword\x7d; i++)); do\n"
          ++ strRepeat "    " (d + 3) ++ "    if [[ \"$\x7bwords[i]\x7d\" != -* ]] && [[ \" $\x7bsubcommands\x7d \" == *\" $\x7bwords[i]\x7d \"* ]]; then\n"
          ++ strRepeat "    " (d + 3) ++ "        subcmd=\"$\x7bwords[i]\x7d\"\n"
          ++ strRepeat "    " (d + 3) ++ "        break\n"
          ++ strRepeat "    " (d + 3) ++ "    fi\n"
          ++ strRepeat "    " (d + 3) ++ "done\n\n"
          ++ strRepeat "    " (d + 3) ++ "if [[ -n \"$\x7bsubcmd\x7d\" ]]; then\n"
          ++ strRepeat "    " (d + 3) ++ "    case \"$\x7bsubcmd\x7d\" in\n"
          ++ genArms (.cons k v r) (strRepeat "    " (d + 3)) d
          ++ strRepeat "    " (d + 3) ++ "    esac\n"
          ++ strRepeat "    " (d + 3) ++ "else\n"
          ++ strRepeat "    " (d + 3) ++ "    # No subcommand yet, offer subcommands and options\n"
          ++ strRepeat "    " (d + 3) ++ "    if [[ \"$\x7bcur\x7d\" == -* ]]; then\n"
          ++ ((strRepeat "    " (d + 3) ++ "        ") ++ "# Filter out already used options\n"
            ++ (strRepeat "    " (d + 3) ++ "        ") ++ "local available_opts=\" "
              ++ pyJoin ' ' (optNamesOf options) ++ " \"\n"
            ++ (strRepeat "    " (d + 3) ++ "        ") ++ "for word in \"$\x7bwords[@]\x7d\"; do\n"
            ++ (strRepeat "    " (d + 3) ++ "        ") ++ "    if [[ \"$word\" == " ++ "-*"
              ++ " ]] && [[ \"$word\" != \"$\x7bcur\x7d\" ]]; then\n"
            ++ (strRepeat "    " (d + 3) ++ "        ") ++ "        available_opts=\"$\x7bavailable_opts// $word / \x7d\"\n"
            ++ (strRepeat "    " (d + 3) ++ "        ") ++ "    fi\n"
            ++ (strRepeat "    " (d + 3) ++ "        ") ++ "done\n"
            ++ (strRepeat "    " (d + 3) ++ "        ") ++ "# Trim spaces and offer remaining options\n"
            ++ (strRepeat "    " (d + 3) ++ "        ") ++ "available_opts=\"$\x7bavailable_opts## \x7d\"\n"
            ++ (strRepeat "    " (d + 3) ++ "        ") ++ "available_opts=\"$\x7bavailable_opts%% \x7d\"\n"
            ++ (strRepeat "    " (d + 3) ++ "        ") ++ "COMPREPLY=($(compgen -W \"$\x7bavailable_opts\x7d\" -- " ++ "\"$\x7bcur\x7d\"" ++ "))\n")
          ++ strRepeat "    " (d + 3) ++ "    else\n"
          ++ strRepeat "    " (d + 3) ++ "        COMPREPLY=($(compgen -W \"$\x7bsubcommands\x7d\" -- \"$\x7bcur\x7d\"))\n"
          ++ strRepeat "    " (d + 3) ++ "    fi\n"
          ++ strRepeat "    " (d + 3) ++ "fi\n")
        = (optBlock options (strRepeat "    " (d + 3))
            ++ strRepeat "    " (d + 3) ++ "# Check for subcommand at this level\n"
            ++ strRepeat "    " (d + 3) ++ "local subcmd=\x27\x27\n"
            ++ strRepeat "    " (d + 3) ++ "local subcommands=\x27"
            ++ pyJoin ' ' (SubMap.keys (.cons k v r)) ++ "\x27\n"
            ++ strRepeat "    " (d + 3) ++ "local idx=$((cmd_idx + " ++ toString d ++ "))\n"
            ++ strRepeat "    " (d + 3) ++ "for ((i=idx+1; i < $\x7bcword\x7d; i++)); do\n"
            ++ strRepeat "    " (d + 3) ++ "    if [[ \"$\x7bwords[i]\x7d\" != -* ]] && [[ \" $\x7bsubcommands\x7d \" == *\" $\x7bwords[i]\x7d \"* ]]; then\n"
            ++ strRepeat "    " (d + 3) ++ "        subcmd=\"$\x7bwords[i]\x7d\"\n"
            ++ strRepeat "    " (d + 3) ++ "        break\n"
            ++ strRepeat "    " (d + 3) ++ "    fi\n"
            ++ strRepeat "    " (d + 3) ++ "done\n\n"
            ++ strRepeat "    " (d + 3) ++ "if [[ -n \"$\x7bsubcmd\x7d\" ]]; then\n"
            ++ strRepeat "    " (d + 3) ++ "    case \"$\x7bsubcmd\x7d\" in\n"
            ++ genArms (.cons k v r) (strRepeat "    " (d + 3)) d
            ++ strRepeat "    " (d + 3) ++ "    esac\n"
            ++ strRepeat "    " (d + 3) ++ "else\n"
            ++ strRepeat "    " (d + 3) ++ "    # No subcommand yet, offer subcommands and options\n"
            ++ strRepeat "    " (d + 3) ++ "    if [[ \"$\x7bcur\x7d\" == -* ]]; then\n"
            ++ (strRepeat "    " (d + 3) ++ "        ") ++ "# Filter out already used options\n"
            ++ (strRepeat "    " (d + 3) ++ "        "))
          ++ ("local available_opts=\" " ++ pyJoin ' ' (optNamesOf options) ++ " \"\n")
          ++ ((strRepeat "    " (d + 3) ++ "        ") ++ "for word in \"$\x7bwords[@]\x7d\"; do\n"
            ++ (strRepeat "    " (d + 3) ++ "        ") ++ "    if [[ \"$word\" == " ++ "-*"
              ++ " ]] && [[ \"$word\" != \"$\x7bcur\x7d\" ]]; then\n"
            ++ (strRepeat "    " (d + 3) ++ "        ") ++ "        available_opts=\"$\x7bavailable_opts// $word / \x7d\"\n"
            ++ (strRepeat "    " (d + 3) ++ "        ") ++ "    fi\n"
            ++ (strRepeat "    " (d + 3) ++ "        ") ++ "done\n"
            ++ (strRepeat "    " (d + 3) ++ "        ") ++ "# Trim spaces and offer remaining options\n"
            ++ (strRepeat "    " (d + 3) ++ "        ") ++ "available_opts=\"$\x7bavailable_opts## \x7d\"\n"
            ++ (strRepeat "    " (d + 3) ++ "        ") ++ "available_opts=\"$\x7bavailable_opts%% \x7d\"\n"
            ++ (strRepeat "    " (d + 3) ++ "        ") ++ "COMPREPLY=($(compgen -W \"$\x7bavailable_opts\x7d\" -- " ++ "\"$\x7bcur\x7d\"" ++ "))\n"
            ++ strRepeat "    " (d + 3) ++ "    else\n"
            ++ strRepeat "    " (d + 3) ++ "        COMPREPLY=($(compgen -W \"$\x7bsubcommands\x7d\" -- \"$\x7bcur\x7d\"))\n"
            ++ strRepeat "    " (d + 3) ++ "    fi\n"
            ++ strRepeat "    " (d + 3) ++ "fi\n") := by
        simp only [strAssoc]
      rw [hsplit]
      refine rstrip_ContainsSub _ _ _ ?_
      exact rstrip_ne_of _ _ (by decide)

theorem spec_c1_witness :
    ContainsSub (generate_completion_case demoDevNode 0)
      "local subcommands=\x27format\x27\n"
    ∧ ContainsSub (generate_completion_case demoDevNode 0)
      "local available_opts=\" --format \"\n" := by
  constructor
  · exact (spec_c1 demoDevNode).2.2.1 "dev" "Development tools"
      [⟨["--format"], "CHOICE", ["table", "json", "yaml"]⟩]
      (.cons "format" demoFormatNode .nil) 0 rfl
  · exact (spec_c1 demoDevNode).2.2.2 "dev" "Development tools"
      [⟨["--format"], "CHOICE", ["table", "json", "yaml"]⟩]
      (.cons "format" demoFormatNode .nil) 0 rfl (by decide)

end CoreCLI
